import Mathlib

/-!
Verification development for the spatial binning index (`Bins`) of the `gm`
package: a uniform grid over a 2-D or 3-D bounding box that stores point
entries and answers nearest-entry and near-a-segment queries.

The Go code is shallowly embedded: `float64` is modelled as `ℚ` (exact
arithmetic), Go slices as `List`, nil bin pointers as `Option Bin`, and the
mutation of the receiver as explicit state passing (functions return the
updated `Bins` value).  The private scratch slice `tmp` of the source is not
observable and is therefore not part of the state.  Fallible operations
return `Except`/`Option`; `Option.none` on `Bins.Find` models the Go runtime
panic (nil-pointer dereference) that the source performs when
`FindBinByIndex` returns nil.
-/

/-- Entry of a bin (Go `BinEntry`): object id and entry coordinate. -/
structure BinEntry where
  Id : Int
  X : List ℚ
deriving DecidableEq

/-- One bin (Go `Bin`): its flat index and its insertion-ordered entries. -/
structure Bin where
  Idx : Int
  Entries : List BinEntry
deriving DecidableEq

/-- The bins structure (Go `Bins`): geometry fields and the flat bin table
`All` (a nil slot is a cell whose bin was never materialized). -/
structure Bins where
  Ndim : Nat
  Xi : List ℚ
  Xf : List ℚ
  L : List ℚ
  S : List ℚ
  N : List Int
  All : List (Option Bin)
deriving DecidableEq

/-- Go conversion `int(q)` from float64: truncation toward zero,
modelled exactly on `ℚ`. -/
def goInt (q : ℚ) : Int := if 0 ≤ q then ⌊q⌋ else ⌈q⌉

/-- Go integer division (truncated toward zero, like C). -/
def goDiv (a b : Int) : Int := Int.tdiv a b

/-- Go integer remainder (sign of the dividend, pairs with `goDiv`). -/
def goMod (a b : Int) : Int := Int.tmod a b

/-- Product of the per-dimension bin counts `N[k]` (the `nbins` accumulation
of `Init`). -/
def prodN (o : Bins) : Int := o.N.foldl (fun acc n => acc * n) 1

/-- Go `Bins.Init`: derives the dimension from `xi`, validates it, computes
whole box lengths `L`, bin sizes `S = L/ndiv`, divisions
`N[k] = int(L[k]/S[k]) + 1` and allocates the flat table of `∏ N[k]` nil
bins. -/
def Bins.Init (xi xf : List ℚ) (ndiv : Int) : Except String Bins :=
  if xi.length ≠ xf.length ∨ xi.length < 2 ∨ 3 < xi.length then
    Except.error "sizes of xi and l must be the same and equal to either 2 or 3"
  else
    let ndim := xi.length
    let L := (List.range ndim).map (fun k => xf.getD k 0 - xi.getD k 0)
    let S := (List.range ndim).map (fun k => (xf.getD k 0 - xi.getD k 0) / (ndiv : ℚ))
    let N := (List.range ndim).map (fun k => goInt (L.getD k 0 / S.getD k 0) + 1)
    let nbins := N.foldl (fun acc n => acc * n) 1
    Except.ok { Ndim := ndim, Xi := xi, Xf := xf, L := L, S := S, N := N,
                All := List.replicate nbins.toNat none }

/-- Go `Bins.CalcIdx`: the bin index of point `x`, or `-1` when `x` is
outside the box in some dimension.  The per-dimension cell coordinate is
`int((x[k]-Xi[k])/S[k])` and the flat index is the row-major linearization
`t0 + t1*N[0] (+ t2*N[0]*N[1] in 3-D)`. -/
def Bins.CalcIdx (o : Bins) (x : List ℚ) : Int :=
  if (List.range o.Ndim).all
      (fun k => decide (o.Xi.getD k 0 ≤ x.getD k 0 ∧ x.getD k 0 ≤ o.Xf.getD k 0)) then
    let t : Nat → Int := fun k => goInt ((x.getD k 0 - o.Xi.getD k 0) / o.S.getD k 0)
    let idx := t 0 + t 1 * o.N.getD 0 0
    if 2 < o.Ndim then idx + t 2 * o.N.getD 0 0 * o.N.getD 1 0 else idx
  else -1

/-- Go `Bins.FindBinByIndex`: nil for an out-of-range index; otherwise the
bin at `idx`, lazily materializing an empty bin in the table when the slot
is nil.  The (possibly) updated table is returned alongside. -/
def Bins.FindBinByIndex (o : Bins) (idx : Int) : Option Bin × Bins :=
  if idx < 0 ∨ (o.All.length : Int) ≤ idx then (none, o)
  else
    match o.All.getD idx.toNat none with
    | some b => (some b, o)
    | none =>
      let b : Bin := { Idx := idx, Entries := [] }
      (some b, { o with All := o.All.set idx.toNat (some b) })

/-- Go `Bins.Append`: adds entry `{x, id}` to the bin of `x`.  Fails with the
out-of-range error when `CalcIdx` gives `-1`, and with the bin-index error
when `FindBinByIndex` gives nil.  The stored coordinate is a copy of `x`
(identity in this pure model). -/
def Bins.Append (o : Bins) (x : List ℚ) (id : Int) : Except String Unit × Bins :=
  let idx := o.CalcIdx x
  if idx < 0 then (Except.error "point is out of range", o)
  else
    match o.FindBinByIndex idx with
    | (none, o2) => (Except.error "bin index is out of range", o2)
    | (some bin, o2) =>
      let bin2 : Bin := { bin with Entries := bin.Entries ++ [{ Id := id, X := x }] }
      (Except.ok (), { o2 with All := o2.All.set idx.toNat (some bin2) })

/-- Go `Bins.Clear`: `o.All = make([]*Bin, 0)` — the table becomes a
zero-length slice (geometry fields are untouched). -/
def Bins.Clear (o : Bins) : Bins := { o with All := [] }

/-- The float64 upper bound `math.MaxFloat64`, the initial `dmin` of the
nearest-entry scan, as an exact rational. -/
@[irreducible] def maxFloat64 : ℚ := (2 ^ 53 - 1) * 2 ^ 971

/-- Squared Euclidean distance over the first `ndim` components, the
`d += math.Pow(x[k]-entry.X[k], 2)` accumulation of `Bins.Find`. -/
def sqDistTo (x : List ℚ) (ndim : Nat) (y : List ℚ) : ℚ :=
  ((List.range ndim).map (fun k => (x.getD k 0 - y.getD k 0) ^ 2)).sum

/-- The entry scan of Go `Bins.Find`: running minimum `dmin` (strict
improvement only, so ties keep the earlier entry) with running best id. -/
def findLoop (x : List ℚ) (ndim : Nat) : List BinEntry → ℚ → Int → Int
  | [], _, best => best
  | e :: rest, dmin, best =>
    if sqDistTo x ndim e.X < dmin then findLoop x ndim rest (sqDistTo x ndim e.X) e.Id
    else findLoop x ndim rest dmin best

/-- The same running-minimum scan as `findLoop`, abstracted over the scoring
function, for reasoning. -/
def findLoopF (f : BinEntry → ℚ) : List BinEntry → ℚ → Int → Int
  | [], _, best => best
  | e :: rest, dmin, best =>
    if f e < dmin then findLoopF f rest (f e) e.Id
    else findLoopF f rest dmin best

/-- Go `Bins.Find`: id of the stored entry closest to `x`, `-1` when out of
range; `none` models the nil-pointer dereference panic of the source when
`FindBinByIndex` returns nil (which happens whenever `Clear` has shrunk the
table).  The returned `Bins` carries the lazily materialized bin, which in Go
persists through the shared slice backing array. -/
def Bins.Find (o : Bins) (x : List ℚ) : Option (Int × Bins) :=
  let idx := o.CalcIdx x
  if idx < 0 then some (-1, o)
  else
    match o.FindBinByIndex idx with
    | (none, _) => none
    | (some bin, o2) => some (findLoop x o.Ndim bin.Entries maxFloat64 (-1), o2)

/-- The 3-component point of the geometry package (`gm.Point`); its fields
`X`, `Y`, `Z` are exactly as used by the source. -/
structure Point where
  X : ℚ
  Y : ℚ
  Z : ℚ
deriving DecidableEq

/-- Componentwise difference of points. -/
def pointSub (p q : Point) : Point := { X := p.X - q.X, Y := p.Y - q.Y, Z := p.Z - q.Z }

/-- Dot product. -/
def dotP (u v : Point) : ℚ := u.X * v.X + u.Y * v.Y + u.Z * v.Z

/-- Squared norm. -/
def normSqP (u : Point) : ℚ := dotP u u

/-- Modelled from the spec: the point-to-segment distance routine
(`DistPointLine`, not under `src/`).  The spec fixes the convention
"measured to the finite segment"; this is the parameter (clamped orthogonal
projection) of the closest point of segment `[a,b]` to `p`.  A degenerate
segment uses the endpoint `a`. -/
def segParam (p a b : Point) : ℚ :=
  if normSqP (pointSub b a) = 0 then 0
  else min 1 (max 0 (dotP (pointSub p a) (pointSub b a) / normSqP (pointSub b a)))

/-- The point of segment `[a,b]` at parameter `t`. -/
def segPointAt (a b : Point) (t : ℚ) : Point :=
  { X := a.X + t * (b.X - a.X), Y := a.Y + t * (b.Y - a.Y), Z := a.Z + t * (b.Z - a.Z) }

/-- Modelled from the spec: squared distance from `p` to the finite segment
`[a,b]` (`DistPointLine` squared, see `segParam`). -/
def distSegSq (p a b : Point) : ℚ := normSqP (pointSub p (segPointAt a b (segParam p a b)))

/-- Modelled from the spec: the only use the source makes of
`DistPointLine` is the comparison `d ≤ bound`; since the distance is
nonnegative this is embedded in the equivalent squared form
`0 ≤ bound ∧ d² ≤ bound²`, which keeps all arithmetic exact. -/
def distSegLE (p a b : Point) (t : ℚ) : Bool := decide (0 ≤ t ∧ distSegSq p a b ≤ t ^ 2)

/-- Modelled from the spec: `IsPointIn` (not under `src/`) — containment of
`p` in the axis-aligned box spanned componentwise by `cmin`/`cmax`
(componentwise min/max, inclusive), expanded by `tol`. -/
def IsPointIn (p : Point) (cmin cmax : List ℚ) (tol : ℚ) : Bool :=
  decide (min (cmin.getD 0 0) (cmax.getD 0 0) - tol ≤ p.X ∧
          p.X ≤ max (cmin.getD 0 0) (cmax.getD 0 0) + tol ∧
          min (cmin.getD 1 0) (cmax.getD 1 0) - tol ≤ p.Y ∧
          p.Y ≤ max (cmin.getD 1 0) (cmax.getD 1 0) + tol ∧
          min (cmin.getD 2 0) (cmax.getD 2 0) - tol ≤ p.Z ∧
          p.Z ≤ max (cmin.getD 2 0) (cmax.getD 2 0) + tol)

/-- The `lmax` of `FindAlongSegment`: largest bin size over the dimensions. -/
def lmaxS (o : Bins) : ℚ :=
  if o.Ndim = 3 then max (max (o.S.getD 0 0) (o.S.getD 1 0)) (o.S.getD 2 0)
  else max (o.S.getD 0 0) (o.S.getD 1 0)

/-- Geometric center of the cell with flat index `n`, decoded as in the
source: `i = idx % N[0]`, `j = (idx % (N[0]*N[1])) / N[0]`,
`k = idx / (N[0]*N[1])`; in 2-D the z-component stays `0`. -/
def binCenter (o : Bins) (n : Nat) : Point :=
  { X := o.Xi.getD 0 0 + (goMod (n : Int) (o.N.getD 0 0) : ℚ) * o.S.getD 0 0
      + o.S.getD 0 0 / 2,
    Y := o.Xi.getD 1 0 + (goDiv (goMod (n : Int) (o.N.getD 0 0 * o.N.getD 1 0))
      (o.N.getD 0 0) : ℚ) * o.S.getD 1 0 + o.S.getD 1 0 / 2,
    Z := if o.Ndim = 3 then
           o.Xi.getD 2 0 + (goDiv (n : Int) (o.N.getD 0 0 * o.N.getD 1 0) : ℚ) * o.S.getD 2 0
             + o.S.getD 2 0 / 2
         else 0 }

/-- The segment endpoints as `Point`s (`pi`, `pf` of the source); in 2-D the
z-components keep the `Point` zero value `0`. -/
def segEndpoints (o : Bins) (xi xf : List ℚ) : Point × Point :=
  ({ X := xi.getD 0 0, Y := xi.getD 1 0, Z := if o.Ndim = 3 then xi.getD 2 0 else 0 },
   { X := xf.getD 0 0, Y := xf.getD 1 0, Z := if o.Ndim = 3 then xf.getD 2 0 else 0 })

/-- The lower corner passed to `IsPointIn`: in 2-D the source widens the
segment bound to z-extent `[-1, 1]`. -/
def envLo (o : Bins) (xi : List ℚ) : List ℚ :=
  if o.Ndim = 3 then xi else [xi.getD 0 0, xi.getD 1 0, -1]

/-- The upper corner passed to `IsPointIn` (see `envLo`). -/
def envHi (o : Bins) (xf : List ℚ) : List ℚ :=
  if o.Ndim = 3 then xf else [xf.getD 0 0, xf.getD 1 0, 1]

/-- The point at which the fine phase of `FindAlongSegment` evaluates an
entry.  Faithful to the source: in 3-D the z-coordinate is read from
`entry.X[0]` (not `entry.X[2]`); in 2-D `z` keeps the value `0`. -/
def entryPoint (o : Bins) (e : BinEntry) : Point :=
  { X := e.X.getD 0 0, Y := e.X.getD 1 0,
    Z := if o.Ndim = 3 then e.X.getD 0 0 else 0 }

/-- Go `Bins.FindAlongSegment`: coarse phase selects every materialized bin
whose center is within `0.9*lmax` of the segment, fine phase collects the
ids of entries of selected bins whose evaluation point is within `tol` of
the segment and inside the expanded envelope of the endpoints. -/
def Bins.FindAlongSegment (o : Bins) (xi xf : List ℚ) (tol : ℚ) : List Int :=
  let pipf := segEndpoints o xi xf
  let btol := (9 / 10 : ℚ) * lmaxS o
  let sbins : List Bin :=
    (List.range o.All.length).filterMap (fun n =>
      match o.All.getD n none with
      | none => none
      | some bin => if distSegLE (binCenter o n) pipf.1 pipf.2 btol then some bin else none)
  sbins.foldl (fun acc bin =>
    acc ++ bin.Entries.filterMap (fun e =>
      if distSegLE (entryPoint o e) pipf.1 pipf.2 tol &&
         IsPointIn (entryPoint o e) (envLo o xi) (envHi o xf) tol
      then some e.Id else none)) []

/-- Spec-side definition (§4.5), written from the spec's words for
comparison with `Bins.Find`: the id of the entry minimizing squared
Euclidean distance to `x`, ties broken by first-encountered in insertion
order, `-1` when there is none. -/
def specNearestId (x : List ℚ) (ndim : Nat) (es : List BinEntry) : Int :=
  match es.find? (fun e => es.all (fun e2 => decide (sqDistTo x ndim e.X ≤ sqDistTo x ndim e2.X))) with
  | some e => e.Id
  | none => -1

/-- `i` is the id of some entry stored somewhere in the bin table. -/
def IdStored (o : Bins) (i : Int) : Prop :=
  ∃ (n : Nat) (b : Bin) (e : BinEntry),
    o.All[n]? = some (some b) ∧ e ∈ b.Entries ∧ e.Id = i

/-- Every stored entry's coordinate lies inside the bounding box. -/
def EntriesInBox (o : Bins) : Prop :=
  ∀ (n : Nat) (b : Bin), o.All[n]? = some (some b) →
    ∀ e ∈ b.Entries, ∀ k, k < o.Ndim →
      o.Xi.getD k 0 ≤ e.X.getD k 0 ∧ e.X.getD k 0 ≤ o.Xf.getD k 0

/-- States reachable from a successful construction through the operations
of the index. -/
inductive Reach : Bins → Prop where
  | init : ∀ xi xf ndiv o, Bins.Init xi xf ndiv = Except.ok o → Reach o
  | app : ∀ o x id, Reach o → Reach (Bins.Append o x id).2
  | fnd : ∀ o x r o2, Reach o → Bins.Find o x = some (r, o2) → Reach o2
  | clr : ∀ o, Reach o → Reach (Bins.Clear o)

/-- Structural invariant of a validly constructed, never cleared grid:
positive bin sizes, `N[k]` strictly dominating `L[k]/S[k]`, table length
`∏ N[k]`, and every materialized bin sitting at the flat index of its own
entries. -/
structure BinsInv (o : Bins) : Prop where
  hdim : o.Ndim = 2 ∨ o.Ndim = 3
  hNlen : o.N.length = o.Ndim
  hSpos : ∀ k, k < o.Ndim → 0 < o.S.getD k 0
  hNS : ∀ k, k < o.Ndim → (o.Xf.getD k 0 - o.Xi.getD k 0) / o.S.getD k 0 < (o.N.getD k 0 : ℚ)
  hNpos : ∀ k, k < o.Ndim → 1 ≤ o.N.getD k 0
  hlen : (o.All.length : Int) = prodN o
  hbins : ∀ (n : Nat) (b : Bin), o.All[n]? = some (some b) →
    b.Idx = (n : Int) ∧ ∀ e ∈ b.Entries, o.CalcIdx e.X = (n : Int)

/-- The grid of a successful `Init`, with a harmless placeholder in the
(unused) error case, for writing closed concrete statements. -/
def gridOf (xi xf : List ℚ) (ndiv : Int) : Bins :=
  match Bins.Init xi xf ndiv with
  | Except.ok o => o
  | Except.error _ => { Ndim := 0, Xi := [], Xf := [], L := [], S := [], N := [], All := [] }

/-- The bin stored by a successful `Append` at the target slot. -/
def appendBin (o : Bins) (x : List ℚ) (id : Int) : Bin :=
  match o.All.getD (o.CalcIdx x).toNat none with
  | some b => { Idx := b.Idx, Entries := b.Entries ++ [{ Id := id, X := x }] }
  | none => { Idx := o.CalcIdx x, Entries := [{ Id := id, X := x }] }

/-- Demo grid: box [0,1]x[0,1], one division (used by concrete theorems). -/
def gridA : Bins := gridOf [0, 0] [1, 1] 1

/-- `gridA` after `Find` has materialized the empty bin of the queried cell. -/
def gridA2 : Bins := { gridA with All := [some { Idx := 0, Entries := [] }, none, none, none] }

/-- `gridA` after inserting entry 7 at (1/2, 1/2). -/
def gridA3 : Bins := (gridA.Append [1/2, 1/2] 7).2

/-- Demo grid: box [0,10]x[0,10], ndiv 5, entry 1 at (5,5). -/
def gridB : Bins := ((gridOf [0, 0] [10, 10] 5).Append [5, 5] 1).2

/-- Demo 3-D grid: box [0,10]^3, ndiv 1, entry 1 at (2, 0, 3/10). -/
def gridD : Bins := ((gridOf [0, 0, 0] [10, 10, 10] 1).Append [2, 0, 3/10] 1).2

/-- Demo grid: box [0,10]x[0,10], ndiv 5, entries 1 at (1,1) and 2 at (6/5,1). -/
def gridE : Bins := (((gridOf [0, 0] [10, 10] 5).Append [1, 1] 1).2.Append [6/5, 1] 2).2

/-- Demo grid: box [0,10]x[0,10], ndiv 5, entry 1 at (1/5, 5). -/
def gridW : Bins := ((gridOf [0, 0] [10, 10] 5).Append [1/5, 5] 1).2

/-- The bin of `gridE` holding its two entries. -/
def binE : Bin := { Idx := 0, Entries := [{ Id := 1, X := [1, 1] }, { Id := 2, X := [6/5, 1] }] }

/-- The bin of `gridW` holding its entry. -/
def binW : Bin := { Idx := 12, Entries := [{ Id := 1, X := [1/5, 5] }] }

section Helpers

lemma getD_map_range {α : Type} (f : Nat → α) (n k : Nat) (hk : k < n) (d : α) :
    ((List.range n).map f).getD k d = f k := by
  rw [List.getD_eq_getElem?_getD, List.getElem?_map, List.getElem?_range hk]
  rfl

lemma foldl_append_mem {α β : Type} (g : β → List α) (l : List β) (init : List α) (a : α) :
    a ∈ l.foldl (fun acc b => acc ++ g b) init ↔ a ∈ init ∨ ∃ b ∈ l, a ∈ g b := by
  induction l generalizing init with
  | nil => simp
  | cons b t ih =>
    simp only [List.foldl_cons, ih, List.mem_append, List.mem_cons]
    constructor
    · rintro (⟨h | h⟩ | ⟨c, hc, ha⟩)
      · exact Or.inl h
      · exact Or.inr ⟨b, Or.inl rfl, h⟩
      · exact Or.inr ⟨c, Or.inr hc, ha⟩
    · rintro (h | ⟨c, (rfl | hc), ha⟩)
      · exact Or.inl (Or.inl h)
      · exact Or.inl (Or.inr ha)
      · exact Or.inr ⟨c, hc, ha⟩

lemma goInt_of_nonneg {q : ℚ} (h : 0 ≤ q) : goInt q = ⌊q⌋ := by
  simp [goInt, h]

lemma goInt_intCast (n : Int) : goInt (n : ℚ) = n := by
  by_cases h : 0 ≤ (n : ℚ)
  · simp [goInt, h]
  · simp [goInt, h]

lemma calcIdx_setAll (o : Bins) (l : List (Option Bin)) (x : List ℚ) :
    Bins.CalcIdx { o with All := l } x = o.CalcIdx x := rfl

lemma calcIdx_neg_of_out (o : Bins) (x : List ℚ) (k : Nat) (hk : k < o.Ndim)
    (hout : x.getD k 0 < o.Xi.getD k 0 ∨ o.Xf.getD k 0 < x.getD k 0) :
    o.CalcIdx x = -1 := by
  unfold Bins.CalcIdx
  rw [if_neg]
  intro hall
  rw [List.all_eq_true] at hall
  have := hall k (List.mem_range.2 hk)
  simp only [decide_eq_true_eq] at this
  rcases hout with h | h
  · exact absurd this.1 (by linarith)
  · exact absurd this.2 (by linarith)

lemma calcIdx_inBox (o : Bins) (x : List ℚ) (h : 0 ≤ o.CalcIdx x) :
    ∀ k, k < o.Ndim → o.Xi.getD k 0 ≤ x.getD k 0 ∧ x.getD k 0 ≤ o.Xf.getD k 0 := by
  intro k hk
  rcases le_or_lt (o.Xi.getD k 0) (x.getD k 0) with h1 | h1
  · rcases le_or_lt (x.getD k 0) (o.Xf.getD k 0) with h2 | h2
    · exact ⟨h1, h2⟩
    · rw [calcIdx_neg_of_out o x k hk (Or.inr h2)] at h; norm_num at h
  · rw [calcIdx_neg_of_out o x k hk (Or.inl h1)] at h; norm_num at h

lemma calcIdx_of_inBox (o : Bins) (x : List ℚ)
    (h : ∀ k, k < o.Ndim → o.Xi.getD k 0 ≤ x.getD k 0 ∧ x.getD k 0 ≤ o.Xf.getD k 0) :
    o.CalcIdx x =
      (if 2 < o.Ndim then
        goInt ((x.getD 0 0 - o.Xi.getD 0 0) / o.S.getD 0 0)
          + goInt ((x.getD 1 0 - o.Xi.getD 1 0) / o.S.getD 1 0) * o.N.getD 0 0
          + goInt ((x.getD 2 0 - o.Xi.getD 2 0) / o.S.getD 2 0) * o.N.getD 0 0 * o.N.getD 1 0
      else
        goInt ((x.getD 0 0 - o.Xi.getD 0 0) / o.S.getD 0 0)
          + goInt ((x.getD 1 0 - o.Xi.getD 1 0) / o.S.getD 1 0) * o.N.getD 0 0) := by
  have hall : ((List.range o.Ndim).all
      (fun k => decide (o.Xi.getD k 0 ≤ x.getD k 0 ∧ x.getD k 0 ≤ o.Xf.getD k 0))) = true := by
    rw [List.all_eq_true]
    intro k hkmem
    simp only [decide_eq_true_eq]
    exact h k (List.mem_range.1 hkmem)
  unfold Bins.CalcIdx
  rw [if_pos hall]

end Helpers

section InitLemmas

lemma init_ok_shape (xi xf : List ℚ) (ndiv : Int) (o : Bins)
    (h : Bins.Init xi xf ndiv = Except.ok o) :
    o.Ndim = xi.length ∧ o.Xi = xi ∧ o.Xf = xf ∧
    o.All = List.replicate (prodN o).toNat none ∧
    o.L.length = xi.length ∧ o.S.length = xi.length ∧ o.N.length = xi.length ∧
    xi.length = xf.length ∧ 2 ≤ xi.length ∧ xi.length ≤ 3 := by
  unfold Bins.Init at h
  split at h
  · exact absurd h (by simp)
  · rename_i hcond
    push_neg at hcond
    obtain ⟨h1, h2, h3⟩ := hcond
    cases h
    refine ⟨rfl, rfl, rfl, rfl, by simp, by simp, by simp, h1, ?_, ?_⟩ <;> omega

lemma init_ok_vals (xi xf : List ℚ) (ndiv : Int) (o : Bins)
    (h : Bins.Init xi xf ndiv = Except.ok o) (k : Nat) (hk : k < xi.length) :
    o.L.getD k 0 = xf.getD k 0 - xi.getD k 0 ∧
    o.S.getD k 0 = (xf.getD k 0 - xi.getD k 0) / (ndiv : ℚ) ∧
    o.N.getD k 0 =
      goInt ((xf.getD k 0 - xi.getD k 0) / ((xf.getD k 0 - xi.getD k 0) / (ndiv : ℚ))) + 1 := by
  unfold Bins.Init at h
  split at h
  · exact absurd h (by simp)
  · cases h
    refine ⟨getD_map_range _ _ _ hk _, getD_map_range _ _ _ hk _, ?_⟩
    show ((List.range xi.length).map _).getD k 0 = _
    rw [getD_map_range _ _ _ hk, getD_map_range _ _ _ hk, getD_map_range _ _ _ hk]

lemma valid_ratio (Lv : ℚ) (ndiv : Int) (hL : 0 < Lv) (hnd : 1 ≤ ndiv) :
    Lv / (Lv / (ndiv : ℚ)) = ((ndiv : ℚ)) := by
  have h1 : Lv ≠ 0 := ne_of_gt hL
  have h2 : ((ndiv : ℚ)) ≠ 0 := by
    have : (0 : ℚ) < (ndiv : ℚ) := by exact_mod_cast lt_of_lt_of_le Int.one_pos hnd
    exact ne_of_gt this
  field_simp

lemma prodN_eval2 (o : Bins) (a b : Int) (h : o.N = [a, b]) : prodN o = a * b := by
  simp [prodN, h]

lemma prodN_eval3 (o : Bins) (a b c : Int) (h : o.N = [a, b, c]) : prodN o = a * b * c := by
  simp [prodN, h]

end InitLemmas

section InitInv

lemma init_valid_vals (xi xf : List ℚ) (ndiv : Int) (o : Bins)
    (h : Bins.Init xi xf ndiv = Except.ok o)
    (hv : ∀ k, k < xi.length → xi.getD k 0 < xf.getD k 0) (hnd : 1 ≤ ndiv)
    (k : Nat) (hk : k < xi.length) :
    0 < o.S.getD k 0 ∧ o.N.getD k 0 = ndiv + 1 := by
  obtain ⟨hL, hS, hN⟩ := init_ok_vals xi xf ndiv o h k hk
  have hLpos : 0 < xf.getD k 0 - xi.getD k 0 := sub_pos.2 (hv k hk)
  have hndQ : (0 : ℚ) < (ndiv : ℚ) := by exact_mod_cast lt_of_lt_of_le Int.one_pos hnd
  constructor
  · rw [hS]; exact div_pos hLpos hndQ
  · rw [hN, valid_ratio _ _ hLpos hnd, goInt_intCast]

lemma init_valid_BinsInv (xi xf : List ℚ) (ndiv : Int) (o : Bins)
    (h : Bins.Init xi xf ndiv = Except.ok o)
    (hv : ∀ k, k < xi.length → xi.getD k 0 < xf.getD k 0) (hnd : 1 ≤ ndiv) :
    BinsInv o := by
  obtain ⟨hnd1, hXi, hXf, hAll, hLl, hSl, hNl, hlen2, h2, h3⟩ := init_ok_shape xi xf ndiv o h
  have hdim : o.Ndim = 2 ∨ o.Ndim = 3 := by omega
  have hvals : ∀ k, k < o.Ndim → 0 < o.S.getD k 0 ∧ o.N.getD k 0 = ndiv + 1 := by
    intro k hk
    exact init_valid_vals xi xf ndiv o h hv hnd k (by omega)
  have hNlen : o.N.length = o.Ndim := by omega
  have hprodpos : 0 < prodN o := by
    rcases hdim with hd | hd
    · obtain ⟨a, b, hab⟩ := List.length_eq_two.1 (show o.N.length = 2 by omega)
      have ha : a = ndiv + 1 := by
        have := (hvals 0 (by omega)).2
        rwa [hab] at this
      have hb : b = ndiv + 1 := by
        have := (hvals 1 (by omega)).2
        rwa [hab] at this
      rw [prodN_eval2 o a b hab, ha, hb]
      nlinarith
    · obtain ⟨a, b, c, habc⟩ := List.length_eq_three.1 (show o.N.length = 3 by omega)
      have ha : a = ndiv + 1 := by
        have := (hvals 0 (by omega)).2
        rwa [habc] at this
      have hb : b = ndiv + 1 := by
        have := (hvals 1 (by omega)).2
        rwa [habc] at this
      have hc : c = ndiv + 1 := by
        have := (hvals 2 (by omega)).2
        rwa [habc] at this
      rw [prodN_eval3 o a b c habc, ha, hb, hc]
      nlinarith
  refine ⟨hdim, hNlen, fun k hk => (hvals k hk).1, ?_, ?_, ?_, ?_⟩
  · intro k hk
    obtain ⟨hL, hS, hN⟩ := init_ok_vals xi xf ndiv o h k (by omega)
    have hLpos : 0 < xf.getD k 0 - xi.getD k 0 := sub_pos.2 (hv k (by omega))
    rw [hXi, hXf, hS, valid_ratio _ _ hLpos hnd, (hvals k hk).2]
    push_cast
    linarith
  · intro k hk
    rw [(hvals k hk).2]
    omega
  · rw [hAll, List.length_replicate, Int.toNat_of_nonneg (le_of_lt hprodpos)]
  · intro n b hb
    rw [hAll] at hb
    rcases lt_or_ge n (prodN o).toNat with hn | hn
    · rw [List.getElem?_replicate, if_pos hn] at hb
      exact absurd hb (by simp)
    · rw [List.getElem?_replicate, if_neg (by omega)] at hb
      exact absurd hb (by simp)

end InitInv

section StepLemmas

lemma getD_eq_getElem (l : List (Option Bin)) (n : Nat) (hn : n < l.length) :
    l[n]? = some (l.getD n none) := by
  simp [List.getD_eq_getElem?_getD, List.getElem?_eq_getElem hn]

lemma findBin_out (o : Bins) (idx : Int) (h : idx < 0 ∨ (o.All.length : Int) ≤ idx) :
    o.FindBinByIndex idx = (none, o) := by
  unfold Bins.FindBinByIndex
  rw [if_pos h]

lemma findBin_hit (o : Bins) (idx : Int) (b : Bin) (h0 : 0 ≤ idx)
    (hlt : idx < (o.All.length : Int)) (hb : o.All.getD idx.toNat none = some b) :
    o.FindBinByIndex idx = (some b, o) := by
  unfold Bins.FindBinByIndex
  rw [if_neg (by push_neg; exact ⟨h0, hlt⟩), hb]

lemma findBin_alloc (o : Bins) (idx : Int) (h0 : 0 ≤ idx)
    (hlt : idx < (o.All.length : Int)) (hb : o.All.getD idx.toNat none = none) :
    o.FindBinByIndex idx =
      (some { Idx := idx, Entries := [] },
       { o with All := o.All.set idx.toNat (some { Idx := idx, Entries := [] }) }) := by
  unfold Bins.FindBinByIndex
  rw [if_neg (by push_neg; exact ⟨h0, hlt⟩), hb]

lemma append_err_out (o : Bins) (x : List ℚ) (id : Int) (h : o.CalcIdx x < 0) :
    o.Append x id = (Except.error "point is out of range", o) := by
  unfold Bins.Append
  rw [if_pos h]

lemma append_err_bin (o : Bins) (x : List ℚ) (id : Int) (h0 : 0 ≤ o.CalcIdx x)
    (hge : (o.All.length : Int) ≤ o.CalcIdx x) :
    o.Append x id = (Except.error "bin index is out of range", o) := by
  unfold Bins.Append
  rw [if_neg (not_lt.2 h0), findBin_out o _ (Or.inr hge)]

lemma append_ok_eq (o : Bins) (x : List ℚ) (id : Int) (h0 : 0 ≤ o.CalcIdx x)
    (hlt : o.CalcIdx x < (o.All.length : Int)) :
    o.Append x id =
      (Except.ok (), { o with All := o.All.set (o.CalcIdx x).toNat (some (appendBin o x id)) }) := by
  unfold Bins.Append appendBin
  rw [if_neg (not_lt.2 h0)]
  rcases hgd : o.All.getD (o.CalcIdx x).toNat none with _ | b
  · rw [findBin_alloc o _ h0 hlt hgd]
    simp only [List.set_set, List.nil_append]
  · rw [findBin_hit o _ b h0 hlt hgd]

end StepLemmas

section FindLemmas

lemma setAll_All (o : Bins) (l : List (Option Bin)) : ({ o with All := l } : Bins).All = l := rfl

lemma appendBin_none (o : Bins) (x : List ℚ) (id : Int)
    (hgd : o.All.getD (o.CalcIdx x).toNat none = none) :
    appendBin o x id = { Idx := o.CalcIdx x, Entries := [{ Id := id, X := x }] } := by
  unfold appendBin
  rw [hgd]

lemma appendBin_some (o : Bins) (x : List ℚ) (id : Int) (bold : Bin)
    (hgd : o.All.getD (o.CalcIdx x).toNat none = some bold) :
    appendBin o x id = { Idx := bold.Idx, Entries := bold.Entries ++ [{ Id := id, X := x }] } := by
  unfold appendBin
  rw [hgd]

lemma find_out (o : Bins) (x : List ℚ) (h : o.CalcIdx x < 0) : o.Find x = some (-1, o) := by
  unfold Bins.Find
  rw [if_pos h]

lemma find_panic (o : Bins) (x : List ℚ) (h0 : 0 ≤ o.CalcIdx x)
    (hge : (o.All.length : Int) ≤ o.CalcIdx x) : o.Find x = none := by
  unfold Bins.Find
  rw [if_neg (not_lt.2 h0), findBin_out o _ (Or.inr hge)]

lemma find_hit (o : Bins) (x : List ℚ) (b : Bin) (h0 : 0 ≤ o.CalcIdx x)
    (hlt : o.CalcIdx x < (o.All.length : Int))
    (hb : o.All.getD (o.CalcIdx x).toNat none = some b) :
    o.Find x = some (findLoop x o.Ndim b.Entries maxFloat64 (-1), o) := by
  unfold Bins.Find
  rw [if_neg (not_lt.2 h0), findBin_hit o _ b h0 hlt hb]

lemma find_alloc (o : Bins) (x : List ℚ) (h0 : 0 ≤ o.CalcIdx x)
    (hlt : o.CalcIdx x < (o.All.length : Int))
    (hb : o.All.getD (o.CalcIdx x).toNat none = none) :
    o.Find x = some (-1, { o with All := o.All.set (o.CalcIdx x).toNat (some { Idx := o.CalcIdx x, Entries := [] }) }) := by
  unfold Bins.Find
  rw [if_neg (not_lt.2 h0), findBin_alloc o _ h0 hlt hb]
  rfl

lemma setSlot_BinsInv (o : Bins) (m : Nat) (bnew : Bin) (inv : BinsInv o)
    (hm : m < o.All.length) (hidx : bnew.Idx = (m : Int))
    (hents : ∀ e ∈ bnew.Entries, o.CalcIdx e.X = (m : Int)) :
    BinsInv { o with All := o.All.set m (some bnew) } := by
  refine ⟨inv.hdim, inv.hNlen, fun k hk => inv.hSpos k hk, fun k hk => inv.hNS k hk,
    fun k hk => inv.hNpos k hk, ?_, ?_⟩
  · show ((o.All.set m (some bnew)).length : Int) = prodN o
    rw [List.length_set]
    exact inv.hlen
  · intro n b hb
    rw [setAll_All, List.getElem?_set] at hb
    by_cases hn : m = n
    · rw [if_pos hn, if_pos hm] at hb
      have hb2 : bnew = b := by
        injection hb with hb1
        injection hb1
      subst hb2
      subst hn
      exact ⟨hidx, fun e he => by rw [calcIdx_setAll]; exact hents e he⟩
    · rw [if_neg hn] at hb
      obtain ⟨hidx2, hents2⟩ := inv.hbins n b hb
      exact ⟨hidx2, fun e he => by rw [calcIdx_setAll]; exact hents2 e he⟩

lemma append_BinsInv (o : Bins) (x : List ℚ) (id : Int) (inv : BinsInv o) :
    BinsInv (o.Append x id).2 := by
  rcases lt_or_ge (o.CalcIdx x) 0 with h0 | h0
  · rw [append_err_out o x id h0]
    exact inv
  rcases lt_or_ge (o.CalcIdx x) (o.All.length : Int) with hlt | hge
  swap
  · rw [append_err_bin o x id h0 hge]
    exact inv
  rw [append_ok_eq o x id h0 hlt]
  have htn : ((o.CalcIdx x).toNat : Int) = o.CalcIdx x := Int.toNat_of_nonneg h0
  have hmlt : (o.CalcIdx x).toNat < o.All.length := by omega
  rcases hgd : o.All.getD (o.CalcIdx x).toNat none with _ | bold
  · rw [appendBin_none o x id hgd]
    refine setSlot_BinsInv o _ _ inv hmlt htn.symm ?_
    intro e he
    simp only [List.mem_singleton] at he
    subst he
    exact htn.symm
  · rw [appendBin_some o x id bold hgd]
    have hmem : o.All[(o.CalcIdx x).toNat]? = some (some bold) := by
      rw [getD_eq_getElem o.All _ hmlt, hgd]
    obtain ⟨hidx, hents⟩ := inv.hbins _ bold hmem
    refine setSlot_BinsInv o _ _ inv hmlt (by simpa using hidx) ?_
    intro e he
    rw [List.mem_append] at he
    rcases he with he | he
    · simpa using hents e he
    · simp only [List.mem_singleton] at he
      subst he
      exact htn.symm

lemma find_BinsInv (o : Bins) (x : List ℚ) (r : Int) (o2 : Bins)
    (hf : o.Find x = some (r, o2)) (inv : BinsInv o) : BinsInv o2 := by
  rcases lt_or_ge (o.CalcIdx x) 0 with h0 | h0
  · rw [find_out o x h0] at hf
    injection hf with hf1
    injection hf1 with hr ho
    subst ho
    exact inv
  rcases lt_or_ge (o.CalcIdx x) (o.All.length : Int) with hlt | hge
  swap
  · rw [find_panic o x h0 hge] at hf
    exact absurd hf (by simp)
  have htn : ((o.CalcIdx x).toNat : Int) = o.CalcIdx x := Int.toNat_of_nonneg h0
  have hmlt : (o.CalcIdx x).toNat < o.All.length := by omega
  rcases hgd : o.All.getD (o.CalcIdx x).toNat none with _ | b
  · rw [find_alloc o x h0 hlt hgd] at hf
    injection hf with hf1
    injection hf1 with hr ho
    subst ho
    exact setSlot_BinsInv o _ _ inv hmlt htn.symm (fun e he => by simp at he)
  · rw [find_hit o x b h0 hlt hgd] at hf
    injection hf with hf1
    injection hf1 with hr ho
    subst ho
    exact inv

end FindLemmas

section RangeLemmas

lemma goInt_div_bounds (x xi xf S : ℚ) (N : Int) (hS : 0 < S) (h1 : xi ≤ x) (h2 : x ≤ xf)
    (hN : (xf - xi) / S < (N : ℚ)) :
    0 ≤ goInt ((x - xi) / S) ∧ goInt ((x - xi) / S) < N ∧
    ((goInt ((x - xi) / S) : ℚ)) ≤ (x - xi) / S ∧ (x - xi) / S < goInt ((x - xi) / S) + 1 := by
  have hq : 0 ≤ (x - xi) / S := div_nonneg (by linarith) hS.le
  rw [goInt_of_nonneg hq]
  have hle : (x - xi) / S ≤ (xf - xi) / S := (div_le_div_iff_of_pos_right hS).2 (by linarith)
  have hcast : ((⌊(x - xi) / S⌋ : ℚ)) < (N : ℚ) := lt_of_le_of_lt (le_trans (Int.floor_le _) hle) hN
  refine ⟨Int.floor_nonneg.2 hq, by exact_mod_cast hcast, Int.floor_le _, ?_⟩
  have := Int.lt_floor_add_one ((x - xi) / S)
  linarith

lemma prodN_getD2 (o : Bins) (hlen : o.N.length = 2) :
    prodN o = o.N.getD 0 0 * o.N.getD 1 0 := by
  obtain ⟨a, b, hab⟩ := List.length_eq_two.1 hlen
  rw [prodN_eval2 o a b hab, hab]
  rfl

lemma prodN_getD3 (o : Bins) (hlen : o.N.length = 3) :
    prodN o = o.N.getD 0 0 * o.N.getD 1 0 * o.N.getD 2 0 := by
  obtain ⟨a, b, c, habc⟩ := List.length_eq_three.1 hlen
  rw [prodN_eval3 o a b c habc, habc]
  rfl

lemma calcIdx_decomp2 (o : Bins) (inv : BinsInv o) (h2 : o.Ndim = 2) (x : List ℚ)
    (hin : ∀ k, k < o.Ndim → o.Xi.getD k 0 ≤ x.getD k 0 ∧ x.getD k 0 ≤ o.Xf.getD k 0) :
    o.CalcIdx x = goInt ((x.getD 0 0 - o.Xi.getD 0 0) / o.S.getD 0 0)
      + goInt ((x.getD 1 0 - o.Xi.getD 1 0) / o.S.getD 1 0) * o.N.getD 0 0 ∧
    (∀ k, k < 2 → 0 ≤ goInt ((x.getD k 0 - o.Xi.getD k 0) / o.S.getD k 0) ∧
      goInt ((x.getD k 0 - o.Xi.getD k 0) / o.S.getD k 0) < o.N.getD k 0) := by
  constructor
  · rw [calcIdx_of_inBox o x hin, if_neg (by omega)]
  · intro k hk
    have hb := goInt_div_bounds (x.getD k 0) (o.Xi.getD k 0) (o.Xf.getD k 0) (o.S.getD k 0)
      (o.N.getD k 0) (inv.hSpos k (by omega)) (hin k (by omega)).1 (hin k (by omega)).2
      (inv.hNS k (by omega))
    exact ⟨hb.1, hb.2.1⟩

lemma calcIdx_decomp3 (o : Bins) (inv : BinsInv o) (h3 : o.Ndim = 3) (x : List ℚ)
    (hin : ∀ k, k < o.Ndim → o.Xi.getD k 0 ≤ x.getD k 0 ∧ x.getD k 0 ≤ o.Xf.getD k 0) :
    o.CalcIdx x = goInt ((x.getD 0 0 - o.Xi.getD 0 0) / o.S.getD 0 0)
      + goInt ((x.getD 1 0 - o.Xi.getD 1 0) / o.S.getD 1 0) * o.N.getD 0 0
      + goInt ((x.getD 2 0 - o.Xi.getD 2 0) / o.S.getD 2 0) * o.N.getD 0 0 * o.N.getD 1 0 ∧
    (∀ k, k < 3 → 0 ≤ goInt ((x.getD k 0 - o.Xi.getD k 0) / o.S.getD k 0) ∧
      goInt ((x.getD k 0 - o.Xi.getD k 0) / o.S.getD k 0) < o.N.getD k 0) := by
  constructor
  · rw [calcIdx_of_inBox o x hin, if_pos (by omega)]
  · intro k hk
    have hb := goInt_div_bounds (x.getD k 0) (o.Xi.getD k 0) (o.Xf.getD k 0) (o.S.getD k 0)
      (o.N.getD k 0) (inv.hSpos k (by omega)) (hin k (by omega)).1 (hin k (by omega)).2
      (inv.hNS k (by omega))
    exact ⟨hb.1, hb.2.1⟩

lemma calcIdx_lt_len (o : Bins) (inv : BinsInv o) (x : List ℚ)
    (hin : ∀ k, k < o.Ndim → o.Xi.getD k 0 ≤ x.getD k 0 ∧ x.getD k 0 ≤ o.Xf.getD k 0) :
    0 ≤ o.CalcIdx x ∧ o.CalcIdx x < (o.All.length : Int) := by
  rcases inv.hdim with h2 | h3
  · obtain ⟨heq, hbnd⟩ := calcIdx_decomp2 o inv h2 x hin
    obtain ⟨ht00, ht01⟩ := hbnd 0 (by omega)
    obtain ⟨ht10, ht11⟩ := hbnd 1 (by omega)
    have hN0 : 1 ≤ o.N.getD 0 0 := inv.hNpos 0 (by omega)
    have hN1 : 1 ≤ o.N.getD 1 0 := inv.hNpos 1 (by omega)
    have p1 : goInt ((x.getD 1 0 - o.Xi.getD 1 0) / o.S.getD 1 0) * o.N.getD 0 0
        ≤ (o.N.getD 1 0 - 1) * o.N.getD 0 0 :=
      mul_le_mul_of_nonneg_right (by omega) (by omega)
    rw [heq, inv.hlen, prodN_getD2 o (by rw [inv.hNlen, h2])]
    constructor
    · have := mul_nonneg ht10 (show (0 : Int) ≤ o.N.getD 0 0 by omega)
      omega
    · nlinarith
  · obtain ⟨heq, hbnd⟩ := calcIdx_decomp3 o inv h3 x hin
    obtain ⟨ht00, ht01⟩ := hbnd 0 (by omega)
    obtain ⟨ht10, ht11⟩ := hbnd 1 (by omega)
    obtain ⟨ht20, ht21⟩ := hbnd 2 (by omega)
    have hN0 : 1 ≤ o.N.getD 0 0 := inv.hNpos 0 (by omega)
    have hN1 : 1 ≤ o.N.getD 1 0 := inv.hNpos 1 (by omega)
    have hN2 : 1 ≤ o.N.getD 2 0 := inv.hNpos 2 (by omega)
    have p1 : goInt ((x.getD 1 0 - o.Xi.getD 1 0) / o.S.getD 1 0) * o.N.getD 0 0
        ≤ (o.N.getD 1 0 - 1) * o.N.getD 0 0 :=
      mul_le_mul_of_nonneg_right (by omega) (by omega)
    have p2 : goInt ((x.getD 2 0 - o.Xi.getD 2 0) / o.S.getD 2 0) * (o.N.getD 0 0 * o.N.getD 1 0)
        ≤ (o.N.getD 2 0 - 1) * (o.N.getD 0 0 * o.N.getD 1 0) :=
      mul_le_mul_of_nonneg_right (by omega)
        (mul_nonneg (by omega) (by omega))
    rw [heq, inv.hlen, prodN_getD3 o (by rw [inv.hNlen, h3])]
    constructor
    · have q1 := mul_nonneg ht10 (show (0 : Int) ≤ o.N.getD 0 0 by omega)
      have q2 := mul_nonneg (mul_nonneg ht20 (show (0 : Int) ≤ o.N.getD 0 0 by omega))
        (show (0 : Int) ≤ o.N.getD 1 0 by omega)
      omega
    · nlinarith

end RangeLemmas

section FindLoopLemmas

lemma find?_congr_mem {α : Type} (p q : α → Bool) (l : List α) (h : ∀ a ∈ l, p a = q a) :
    l.find? p = l.find? q := by
  induction l with
  | nil => rfl
  | cons a t ih =>
    have ha := h a (List.mem_cons_self a t)
    by_cases hpa : p a = true
    · rw [List.find?_cons_of_pos _ hpa, List.find?_cons_of_pos _ (ha ▸ hpa)]
    · rw [List.find?_cons_of_neg _ hpa, List.find?_cons_of_neg _ (ha ▸ hpa)]
      exact ih (fun b hb => h b (List.mem_cons_of_mem a hb))

lemma exists_min_mem (f : BinEntry → ℚ) (l : List BinEntry) (hne : l ≠ []) :
    ∃ m ∈ l, ∀ y ∈ l, f m ≤ f y := by
  induction l with
  | nil => exact absurd rfl hne
  | cons a t ih =>
    rcases ht : t with _ | ⟨b, t2⟩
    · exact ⟨a, List.mem_cons_self a _, fun y hy => by
        simp only [ht, List.mem_singleton] at hy
        subst hy
        exact le_refl _⟩
    · rw [← ht]
      obtain ⟨m, hm, hmin⟩ := ih (by rw [ht]; exact List.cons_ne_nil b t2)
      rcases le_total (f a) (f m) with hle | hle
      · refine ⟨a, List.mem_cons_self a t, ?_⟩
        intro y hy
        rcases List.mem_cons.1 hy with rfl | hy2
        · exact le_refl _
        · exact le_trans hle (hmin y hy2)
      · refine ⟨m, List.mem_cons_of_mem a hm, ?_⟩
        intro y hy
        rcases List.mem_cons.1 hy with rfl | hy2
        · exact hle
        · exact hmin y hy2

lemma find?_isSome_of_mem {α : Type} (p : α → Bool) (l : List α) (a : α) (ha : a ∈ l)
    (hpa : p a = true) : ∃ w, l.find? p = some w ∧ p w = true := by
  induction l with
  | nil => exact absurd ha (List.not_mem_nil a)
  | cons b t ih =>
    by_cases hpb : p b = true
    · rw [List.find?_cons_of_pos _ hpb]
      exact ⟨b, rfl, hpb⟩
    · rw [List.find?_cons_of_neg _ hpb]
      rcases List.mem_cons.1 ha with rfl | ha2
      · exact absurd hpa hpb
      · exact ih ha2

lemma scanMin_eq (f : BinEntry → ℚ) (es : List BinEntry) :
    ∀ (dmin : ℚ) (best : Int),
    findLoopF f es dmin best =
      match es.find? (fun e => decide (f e < dmin) && es.all (fun e2 => decide (f e ≤ f e2))) with
      | some ew => ew.Id
      | none => best := by
  induction es with
  | nil => intro dmin best; rfl
  | cons e r ih =>
    intro dmin best
    by_cases hA : f e < dmin
    · by_cases hB : ∀ e2 ∈ e :: r, f e ≤ f e2
      · rw [List.find?_cons_of_pos _ (by
          simp only [Bool.and_eq_true, decide_eq_true_eq, List.all_eq_true]
          exact ⟨hA, fun e2 he2 => hB e2 he2⟩)]
        show findLoopF f (e :: r) dmin best = e.Id
        unfold findLoopF
        rw [if_pos hA, ih]
        have hnone : r.find? (fun y => decide (f y < f e) &&
            r.all (fun y2 => decide (f y ≤ f y2))) = none := by
          rw [List.find?_eq_none]
          intro y hy
          simp only [Bool.and_eq_true, decide_eq_true_eq, List.all_eq_true, not_and]
          intro hlt
          exact absurd hlt (not_lt.2 (hB y (List.mem_cons_of_mem e hy)))
        rw [hnone]
      · push_neg at hB
        obtain ⟨e2, he2mem, he2⟩ := hB
        have he2r : e2 ∈ r := by
          rcases List.mem_cons.1 he2mem with rfl | h
          · exact absurd he2 (lt_irrefl _)
          · exact h
        rw [List.find?_cons_of_neg _ (by
          simp only [Bool.and_eq_true, decide_eq_true_eq, List.all_eq_true, not_and]
          intro _ hall
          exact absurd (hall e2 he2mem) (not_le.2 he2))]
        show findLoopF f (e :: r) dmin best = _
        unfold findLoopF
        rw [if_pos hA, ih]
        have hcongr : r.find? (fun y => decide (f y < f e) &&
              r.all (fun y2 => decide (f y ≤ f y2)))
            = r.find? (fun y => decide (f y < dmin) &&
              (e :: r).all (fun y2 => decide (f y ≤ f y2))) := by
          apply find?_congr_mem
          intro y hy
          rw [Bool.eq_iff_iff]
          simp only [Bool.and_eq_true, decide_eq_true_eq, List.all_eq_true]
          constructor
          · rintro ⟨h1, h2⟩
            refine ⟨lt_trans h1 hA, ?_⟩
            intro y2 hy2
            rcases List.mem_cons.1 hy2 with rfl | hy2r
            · exact le_of_lt h1
            · exact h2 y2 hy2r
          · rintro ⟨h1, h2⟩
            have hy2 : f y ≤ f e2 := h2 e2 (List.mem_cons_of_mem e he2r)
            exact ⟨lt_of_le_of_lt hy2 he2, fun y2 hy2m => h2 y2 (List.mem_cons_of_mem e hy2m)⟩
        rw [hcongr]
        obtain ⟨m, hmmem, hmmin⟩ := exists_min_mem f r (List.ne_nil_of_mem he2r)
        have hpm : (decide (f m < dmin) &&
            (e :: r).all (fun y2 => decide (f m ≤ f y2))) = true := by
          simp only [Bool.and_eq_true, decide_eq_true_eq, List.all_eq_true]
          have hme : f m ≤ f e := le_of_lt (lt_of_le_of_lt (hmmin e2 he2r) he2)
          refine ⟨lt_of_le_of_lt hme hA, ?_⟩
          intro y2 hy2
          rcases List.mem_cons.1 hy2 with rfl | hy2r
          · exact hme
          · exact hmmin y2 hy2r
        obtain ⟨w, hw, hpw⟩ := find?_isSome_of_mem
          (fun y => decide (f y < dmin) && (e :: r).all (fun y2 => decide (f y ≤ f y2)))
          r m hmmem hpm
        rw [hw]
    · rw [List.find?_cons_of_neg _ (by
        simp only [Bool.and_eq_true, decide_eq_true_eq, not_and]
        intro h1
        exact absurd h1 hA)]
      show findLoopF f (e :: r) dmin best = _
      unfold findLoopF
      rw [if_neg hA, ih]
      have hcongr : r.find? (fun y => decide (f y < dmin) &&
            r.all (fun y2 => decide (f y ≤ f y2)))
          = r.find? (fun y => decide (f y < dmin) &&
            (e :: r).all (fun y2 => decide (f y ≤ f y2))) := by
        apply find?_congr_mem
        intro y hy
        rw [Bool.eq_iff_iff]
        simp only [Bool.and_eq_true, decide_eq_true_eq, List.all_eq_true]
        constructor
        · rintro ⟨h1, h2⟩
          refine ⟨h1, ?_⟩
          intro y2 hy2
          rcases List.mem_cons.1 hy2 with rfl | hy2r
          · exact le_trans (le_of_lt h1) (not_lt.1 hA)
          · exact h2 y2 hy2r
        · rintro ⟨h1, h2⟩
          exact ⟨h1, fun y2 hy2 => h2 y2 (List.mem_cons_of_mem e hy2)⟩
      rw [hcongr]

lemma findLoop_eq_findLoopF (x : List ℚ) (ndim : Nat) (es : List BinEntry) (dmin : ℚ)
    (best : Int) :
    findLoop x ndim es dmin best = findLoopF (fun e => sqDistTo x ndim e.X) es dmin best := by
  induction es generalizing dmin best with
  | nil => rfl
  | cons e r ih =>
    unfold findLoop findLoopF
    by_cases h : sqDistTo x ndim e.X < dmin
    · rw [if_pos h, if_pos h, ih]
    · rw [if_neg h, if_neg h, ih]

end FindLoopLemmas

section SoundLemmas

lemma findLoop_spec (x : List ℚ) (ndim : Nat) (es : List BinEntry) (hne : es ≠ [])
    (hb : ∀ e ∈ es, sqDistTo x ndim e.X < maxFloat64) :
    findLoop x ndim es maxFloat64 (-1) = specNearestId x ndim es ∧
    ∃ ew ∈ es,
      es.find? (fun e => es.all (fun e2 =>
        decide (sqDistTo x ndim e.X ≤ sqDistTo x ndim e2.X))) = some ew ∧
      specNearestId x ndim es = ew.Id := by
  have heq := scanMin_eq (fun e => sqDistTo x ndim e.X) es maxFloat64 (-1)
  rw [findLoop_eq_findLoopF, heq]
  have hcongr : es.find? (fun e => decide (sqDistTo x ndim e.X < maxFloat64) &&
        es.all (fun e2 => decide (sqDistTo x ndim e.X ≤ sqDistTo x ndim e2.X)))
      = es.find? (fun e => es.all (fun e2 =>
        decide (sqDistTo x ndim e.X ≤ sqDistTo x ndim e2.X))) := by
    apply find?_congr_mem
    intro a ha
    have : decide (sqDistTo x ndim a.X < maxFloat64) = true := decide_eq_true (hb a ha)
    rw [this, Bool.true_and]
  obtain ⟨m, hm, hmin⟩ := exists_min_mem (fun e => sqDistTo x ndim e.X) es hne
  have hpm : es.all (fun e2 => decide (sqDistTo x ndim m.X ≤ sqDistTo x ndim e2.X)) = true := by
    rw [List.all_eq_true]
    intro y hy
    exact decide_eq_true (hmin y hy)
  rcases hfind : es.find? (fun e => es.all (fun e2 =>
      decide (sqDistTo x ndim e.X ≤ sqDistTo x ndim e2.X))) with _ | w
  · exfalso
    rw [List.find?_eq_none] at hfind
    exact absurd hpm (hfind m hm)
  · unfold specNearestId
    rw [hcongr, hfind]
    exact ⟨rfl, w, List.mem_of_find?_eq_some hfind, rfl, rfl⟩

lemma findLoopF_mem (f : BinEntry → ℚ) (es : List BinEntry) :
    ∀ (dmin : ℚ) (best : Int),
      findLoopF f es dmin best = best ∨ ∃ e ∈ es, findLoopF f es dmin best = e.Id := by
  induction es with
  | nil => intro dmin best; exact Or.inl rfl
  | cons e r ih =>
    intro dmin best
    unfold findLoopF
    by_cases h : f e < dmin
    · rw [if_pos h]
      rcases ih (f e) e.Id with h2 | ⟨e2, he2, h2⟩
      · exact Or.inr ⟨e, List.mem_cons_self e r, h2⟩
      · exact Or.inr ⟨e2, List.mem_cons_of_mem e he2, h2⟩
    · rw [if_neg h]
      rcases ih dmin best with h2 | ⟨e2, he2, h2⟩
      · exact Or.inl h2
      · exact Or.inr ⟨e2, List.mem_cons_of_mem e he2, h2⟩

lemma find_sound (o : Bins) (x : List ℚ) (r : Int) (o2 : Bins)
    (hf : o.Find x = some (r, o2)) : r = -1 ∨ IdStored o r := by
  rcases lt_or_ge (o.CalcIdx x) 0 with h0 | h0
  · rw [find_out o x h0] at hf
    injection hf with hf1
    injection hf1 with hr ho
    exact Or.inl hr.symm
  rcases lt_or_ge (o.CalcIdx x) (o.All.length : Int) with hlt | hge
  swap
  · rw [find_panic o x h0 hge] at hf
    exact absurd hf (by simp)
  rcases hgd : o.All.getD (o.CalcIdx x).toNat none with _ | b
  · rw [find_alloc o x h0 hlt hgd] at hf
    injection hf with hf1
    injection hf1 with hr ho
    exact Or.inl hr.symm
  · rw [find_hit o x b h0 hlt hgd] at hf
    injection hf with hf1
    injection hf1 with hr ho
    subst hr
    rw [findLoop_eq_findLoopF] at *
    rcases findLoopF_mem (fun e => sqDistTo x o.Ndim e.X) b.Entries maxFloat64 (-1)
      with h2 | ⟨e2, he2, h2⟩
    · exact Or.inl h2
    · refine Or.inr ⟨(o.CalcIdx x).toNat, b, e2, ?_, he2, h2.symm⟩
      rw [getD_eq_getElem o.All _ (by omega), hgd]

lemma coarse_mem_elim (cond : Nat → Bool) (l : List (Option Bin)) (b : Bin)
    (hb : b ∈ (List.range l.length).filterMap (fun n =>
      match l.getD n none with
      | none => none
      | some bin => if cond n then some bin else none)) :
    ∃ n, n < l.length ∧ l.getD n none = some b ∧ cond n = true := by
  rw [List.mem_filterMap] at hb
  obtain ⟨n, hn, hbn⟩ := hb
  refine ⟨n, List.mem_range.1 hn, ?_⟩
  rcases hgd : l.getD n none with _ | b2
  · rw [hgd] at hbn
    exact absurd hbn (by simp)
  · rw [hgd] at hbn
    by_cases hc : cond n = true
    · simp only [hc, if_true] at hbn
      injection hbn with hbn1
      refine ⟨?_, hc⟩
      rw [hbn1]
    · simp only [Bool.not_eq_true] at hc
      simp only [hc] at hbn
      exact absurd hbn (by simp)

lemma fas_sound (o : Bins) (xi xf : List ℚ) (tol : ℚ) (i : Int)
    (hi : i ∈ o.FindAlongSegment xi xf tol) : IdStored o i := by
  unfold Bins.FindAlongSegment at hi
  rw [foldl_append_mem] at hi
  rcases hi with hi | ⟨b, hb, hib⟩
  · exact absurd hi (List.not_mem_nil i)
  · obtain ⟨n, hnlen, hbin, hcond⟩ := coarse_mem_elim _ o.All b hb
    rw [List.mem_filterMap] at hib
    obtain ⟨e, he, hei⟩ := hib
    have hid : e.Id = i := by
      by_cases hc : (distSegLE (entryPoint o e) (segEndpoints o xi xf).1
          (segEndpoints o xi xf).2 tol && IsPointIn (entryPoint o e) (envLo o xi)
          (envHi o xf) tol) = true
      · simp only [hc, if_true] at hei
        injection hei
      · simp only [Bool.not_eq_true] at hc
        simp only [hc] at hei
        exact absurd hei (by simp)
    refine ⟨n, b, e, ?_, he, hid⟩
    rw [getD_eq_getElem o.All n hnlen, hbin]

end SoundLemmas

section BoxInvariant

lemma setSlot_EntriesInBox (o : Bins) (m : Nat) (bnew : Bin) (h : EntriesInBox o)
    (hents : ∀ e ∈ bnew.Entries, ∀ k, k < o.Ndim →
      o.Xi.getD k 0 ≤ e.X.getD k 0 ∧ e.X.getD k 0 ≤ o.Xf.getD k 0) :
    EntriesInBox { o with All := o.All.set m (some bnew) } := by
  intro n b hb
  rw [setAll_All, List.getElem?_set] at hb
  by_cases hn : m = n
  · rw [if_pos hn] at hb
    by_cases hm : m < o.All.length
    · rw [if_pos hm] at hb
      have hb2 : bnew = b := by
        injection hb with hb1
        injection hb1
      subst hb2
      exact hents
    · rw [if_neg hm] at hb
      exact absurd hb (by simp)
  · rw [if_neg hn] at hb
    exact h n b hb

lemma entriesInBox_append (o : Bins) (x : List ℚ) (id : Int) (h : EntriesInBox o) :
    EntriesInBox (o.Append x id).2 := by
  rcases lt_or_ge (o.CalcIdx x) 0 with h0 | h0
  · rw [append_err_out o x id h0]
    exact h
  rcases lt_or_ge (o.CalcIdx x) (o.All.length : Int) with hlt | hge
  swap
  · rw [append_err_bin o x id h0 hge]
    exact h
  rw [append_ok_eq o x id h0 hlt]
  have hxin := calcIdx_inBox o x h0
  have hmlt : (o.CalcIdx x).toNat < o.All.length := by omega
  rcases hgd : o.All.getD (o.CalcIdx x).toNat none with _ | bold
  · rw [appendBin_none o x id hgd]
    refine setSlot_EntriesInBox o _ _ h ?_
    intro e he
    simp only [List.mem_singleton] at he
    subst he
    exact hxin
  · rw [appendBin_some o x id bold hgd]
    have hmem : o.All[(o.CalcIdx x).toNat]? = some (some bold) := by
      rw [getD_eq_getElem o.All _ hmlt, hgd]
    refine setSlot_EntriesInBox o _ _ h ?_
    intro e he
    rw [List.mem_append] at he
    rcases he with he | he
    · exact h _ bold hmem e he
    · simp only [List.mem_singleton] at he
      subst he
      exact hxin

lemma entriesInBox_find (o : Bins) (x : List ℚ) (r : Int) (o2 : Bins)
    (hf : o.Find x = some (r, o2)) (h : EntriesInBox o) : EntriesInBox o2 := by
  rcases lt_or_ge (o.CalcIdx x) 0 with h0 | h0
  · rw [find_out o x h0] at hf
    injection hf with hf1
    injection hf1 with hr ho
    subst ho
    exact h
  rcases lt_or_ge (o.CalcIdx x) (o.All.length : Int) with hlt | hge
  swap
  · rw [find_panic o x h0 hge] at hf
    exact absurd hf (by simp)
  rcases hgd : o.All.getD (o.CalcIdx x).toNat none with _ | b
  · rw [find_alloc o x h0 hlt hgd] at hf
    injection hf with hf1
    injection hf1 with hr ho
    subst ho
    exact setSlot_EntriesInBox o _ _ h (fun e he => by simp at he)
  · rw [find_hit o x b h0 hlt hgd] at hf
    injection hf with hf1
    injection hf1 with hr ho
    subst ho
    exact h

lemma reach_entriesInBox (o : Bins) (h : Reach o) : EntriesInBox o := by
  induction h with
  | init xi xf ndiv o hinit =>
    obtain ⟨_, _, _, hAll, _⟩ := init_ok_shape xi xf ndiv o hinit
    intro n b hb
    rw [hAll, List.getElem?_replicate] at hb
    by_cases hn : n < (prodN o).toNat
    · rw [if_pos hn] at hb
      exact absurd hb (by simp)
    · rw [if_neg hn] at hb
      exact absurd hb (by simp)
  | app o x id _ ih => exact entriesInBox_append o x id ih
  | fnd o x r o2 _ hf ih => exact entriesInBox_find o x r o2 hf ih
  | clr o _ _ =>
    intro n b hb
    simp only [Bins.Clear, setAll_All] at hb
    exact absurd hb (by simp)

end BoxInvariant

section GeometryLemmas

lemma normSqP_nonneg (u : Point) : 0 ≤ normSqP u := by
  unfold normSqP dotP
  nlinarith [mul_self_nonneg u.X, mul_self_nonneg u.Y, mul_self_nonneg u.Z]

lemma dotP_CS (u v : Point) : (dotP u v) ^ 2 ≤ normSqP u * normSqP v := by
  unfold normSqP dotP
  nlinarith [sq_nonneg (u.X * v.Y - u.Y * v.X), sq_nonneg (u.X * v.Z - u.Z * v.X),
    sq_nonneg (u.Y * v.Z - u.Z * v.Y)]

lemma normSq_seg_expand (p a b : Point) (τ : ℚ) :
    normSqP (pointSub p (segPointAt a b τ)) =
      normSqP (pointSub p a) - 2 * τ * dotP (pointSub p a) (pointSub b a)
        + τ ^ 2 * normSqP (pointSub b a) := by
  unfold normSqP dotP pointSub segPointAt
  ring

lemma segParam_mem (p a b : Point) : 0 ≤ segParam p a b ∧ segParam p a b ≤ 1 := by
  unfold segParam
  split
  · norm_num
  · constructor
    · exact le_min (by norm_num) (le_max_left 0 _)
    · exact min_le_left 1 _

lemma distSegSq_min (p a b : Point) (τ : ℚ) (h0 : 0 ≤ τ) (h1 : τ ≤ 1) :
    distSegSq p a b ≤ normSqP (pointSub p (segPointAt a b τ)) := by
  have hW : 0 ≤ normSqP (pointSub b a) := normSqP_nonneg _
  unfold distSegSq
  rw [normSq_seg_expand, normSq_seg_expand]
  unfold segParam
  by_cases hWz : normSqP (pointSub b a) = 0
  · rw [if_pos hWz]
    have hD : dotP (pointSub p a) (pointSub b a) = 0 := by
      have hcs := dotP_CS (pointSub p a) (pointSub b a)
      rw [hWz] at hcs
      nlinarith [sq_nonneg (dotP (pointSub p a) (pointSub b a))]
    rw [hWz, hD]
    ring_nf
    exact le_refl _
  · rw [if_neg hWz]
    have hWpos : 0 < normSqP (pointSub b a) := lt_of_le_of_ne hW (Ne.symm hWz)
    set W := normSqP (pointSub b a) with hWdef
    set D := dotP (pointSub p a) (pointSub b a) with hDdef
    rcases lt_or_ge (D / W) 0 with hq | hq
    · have hD0 : D < 0 := by
        by_contra hD0
        push_neg at hD0
        exact absurd (div_nonneg hD0 hW) (not_le.2 hq)
      rw [max_eq_left (le_of_lt hq), min_eq_right (by norm_num : (0:ℚ) ≤ 1)]
      nlinarith [mul_nonneg h0 (le_of_lt (neg_pos.2 hD0))]
    · rcases le_or_lt (D / W) 1 with hq1 | hq1
      · rw [max_eq_right hq, min_eq_right hq1]
        have hkey : 0 ≤ (τ * W - D) ^ 2 / W := div_nonneg (sq_nonneg _) hW
        have hexp : (normSqP (pointSub p a) - 2 * (D / W) * D + (D / W) ^ 2 * W)
            + (τ * W - D) ^ 2 / W
            = normSqP (pointSub p a) - 2 * τ * D + τ ^ 2 * W := by
          field_simp
          ring
        linarith [hexp ▸ add_le_add_left hkey (normSqP (pointSub p a) - 2 * (D / W) * D + (D / W) ^ 2 * W)]
      · have hDW : W < D := by
          have := (lt_div_iff₀ hWpos).1 hq1
          linarith
        rw [max_eq_right hq, min_eq_left (le_of_lt hq1)]
        have hfac : 0 ≤ (1 - τ) * (2 * D - (τ + 1) * W) := by
          apply mul_nonneg (by linarith)
          have : (τ + 1) * W ≤ 2 * W := by nlinarith
          linarith
        nlinarith [hfac]

lemma normSq_split (q p r : Point) :
    normSqP (pointSub q r) = normSqP (pointSub q p)
      + 2 * dotP (pointSub q p) (pointSub p r) + normSqP (pointSub p r) := by
  unfold normSqP dotP pointSub
  ring

lemma distSegSq_triangle (p q a b : Point) (t h : ℚ) (ht : 0 ≤ t) (hh : 0 ≤ h)
    (hp : distSegSq p a b ≤ t ^ 2) (hq : normSqP (pointSub q p) ≤ h ^ 2) :
    distSegSq q a b ≤ (t + h) ^ 2 := by
  obtain ⟨hs0, hs1⟩ := segParam_mem p a b
  have hle := distSegSq_min q a b (segParam p a b) hs0 hs1
  have hsplit := normSq_split q p (segPointAt a b (segParam p a b))
  have hBdef : normSqP (pointSub p (segPointAt a b (segParam p a b))) = distSegSq p a b := rfl
  have hcs := dotP_CS (pointSub q p) (pointSub p (segPointAt a b (segParam p a b)))
  have hA : 0 ≤ normSqP (pointSub q p) := normSqP_nonneg _
  have hB : 0 ≤ normSqP (pointSub p (segPointAt a b (segParam p a b))) := normSqP_nonneg _
  have hD : dotP (pointSub q p) (pointSub p (segPointAt a b (segParam p a b))) ≤ h * t := by
    rcases le_or_lt (dotP (pointSub q p) (pointSub p (segPointAt a b (segParam p a b)))) 0
      with hd | hd
    · exact le_trans hd (mul_nonneg hh ht)
    · have hAB : normSqP (pointSub q p)
          * normSqP (pointSub p (segPointAt a b (segParam p a b))) ≤ h ^ 2 * t ^ 2 :=
        mul_le_mul hq (hBdef ▸ hp) hB (sq_nonneg h)
      have hsum : 0 < dotP (pointSub q p) (pointSub p (segPointAt a b (segParam p a b)))
          + h * t := by
        have := mul_nonneg hh ht
        linarith
      nlinarith [hcs, hAB, hsum]
  nlinarith [hle, hsplit, hq, hBdef ▸ hp, hD]

end GeometryLemmas

section DecodeLemmas

lemma decode2 (N0 N1 t0 t1 : Int) (hN0 : 1 ≤ N0) (_hN1 : 1 ≤ N1) (h00 : 0 ≤ t0)
    (h01 : t0 < N0) (h10 : 0 ≤ t1) (h11 : t1 < N1) :
    goMod (t0 + t1 * N0) N0 = t0 ∧ goDiv (goMod (t0 + t1 * N0) (N0 * N1)) N0 = t1 := by
  have haux : (0 : Int) ≤ t1 * N0 := mul_nonneg h10 (by omega)
  have hn0 : 0 ≤ t0 + t1 * N0 := by linarith
  have haux2 : t1 * N0 ≤ (N1 - 1) * N0 :=
    mul_le_mul_of_nonneg_right (by omega) (by omega)
  have hnlt : t0 + t1 * N0 < N0 * N1 := by nlinarith
  constructor
  · unfold goMod
    rw [Int.tmod_eq_emod hn0 (by omega)]
    have : (t0 + t1 * N0) % N0 = t0 % N0 := Int.add_mul_emod_self
    rw [this, Int.emod_eq_of_lt h00 h01]
  · unfold goMod goDiv
    rw [Int.tmod_eq_emod hn0 (by nlinarith), Int.emod_eq_of_lt hn0 hnlt,
      Int.tdiv_eq_ediv hn0 (by omega), Int.add_mul_ediv_right t0 t1 (by omega : N0 ≠ 0),
      Int.ediv_eq_zero_of_lt h00 h01]
    omega

lemma binCenter2 (o : Bins) (h2 : o.Ndim = 2) (n : Nat) (t0 t1 : Int)
    (hN0 : 1 ≤ o.N.getD 0 0) (hN1 : 1 ≤ o.N.getD 1 0) (h00 : 0 ≤ t0)
    (h01 : t0 < o.N.getD 0 0) (h10 : 0 ≤ t1) (h11 : t1 < o.N.getD 1 0)
    (hn : (n : Int) = t0 + t1 * o.N.getD 0 0) :
    binCenter o n = { X := o.Xi.getD 0 0 + (t0 : ℚ) * o.S.getD 0 0 + o.S.getD 0 0 / 2,
                      Y := o.Xi.getD 1 0 + (t1 : ℚ) * o.S.getD 1 0 + o.S.getD 1 0 / 2,
                      Z := 0 } := by
  obtain ⟨hm, hd⟩ := decode2 (o.N.getD 0 0) (o.N.getD 1 0) t0 t1 hN0 hN1 h00 h01 h10 h11
  unfold binCenter
  rw [hn, hm, hd, if_neg (by omega)]

lemma center_entry_bound (o : Bins) (inv : BinsInv o) (h2 : o.Ndim = 2) (n : Nat)
    (e : BinEntry) (hcalc : o.CalcIdx e.X = (n : Int)) :
    normSqP (pointSub (binCenter o n)
        { X := e.X.getD 0 0, Y := e.X.getD 1 0, Z := 0 })
      ≤ (o.S.getD 0 0 / 2) ^ 2 + (o.S.getD 1 0 / 2) ^ 2 := by
  have hin := calcIdx_inBox o e.X (by rw [hcalc]; exact Int.natCast_nonneg n)
  obtain ⟨heq, hbnd⟩ := calcIdx_decomp2 o inv h2 e.X hin
  obtain ⟨ht00, ht01⟩ := hbnd 0 (by omega)
  obtain ⟨ht10, ht11⟩ := hbnd 1 (by omega)
  have hN0 : 1 ≤ o.N.getD 0 0 := inv.hNpos 0 (by omega)
  have hN1 : 1 ≤ o.N.getD 1 0 := inv.hNpos 1 (by omega)
  rw [binCenter2 o h2 n _ _ hN0 hN1 ht00 ht01 ht10 ht11 (by rw [← hcalc, heq])]
  have hS0 := inv.hSpos 0 (by omega)
  have hS1 := inv.hSpos 1 (by omega)
  have hb0 := goInt_div_bounds (e.X.getD 0 0) (o.Xi.getD 0 0) (o.Xf.getD 0 0) (o.S.getD 0 0)
    (o.N.getD 0 0) hS0 (hin 0 (by omega)).1 (hin 0 (by omega)).2 (inv.hNS 0 (by omega))
  have hb1 := goInt_div_bounds (e.X.getD 1 0) (o.Xi.getD 1 0) (o.Xf.getD 1 0) (o.S.getD 1 0)
    (o.N.getD 1 0) hS1 (hin 1 (by omega)).1 (hin 1 (by omega)).2 (inv.hNS 1 (by omega))
  have hv0a : (goInt ((e.X.getD 0 0 - o.Xi.getD 0 0) / o.S.getD 0 0) : ℚ) * o.S.getD 0 0
      ≤ e.X.getD 0 0 - o.Xi.getD 0 0 := by
    have := hb0.2.2.1
    calc (goInt ((e.X.getD 0 0 - o.Xi.getD 0 0) / o.S.getD 0 0) : ℚ) * o.S.getD 0 0
        ≤ ((e.X.getD 0 0 - o.Xi.getD 0 0) / o.S.getD 0 0) * o.S.getD 0 0 :=
          mul_le_mul_of_nonneg_right this hS0.le
      _ = e.X.getD 0 0 - o.Xi.getD 0 0 := div_mul_cancel₀ _ (ne_of_gt hS0)
  have hv0b : e.X.getD 0 0 - o.Xi.getD 0 0
      < ((goInt ((e.X.getD 0 0 - o.Xi.getD 0 0) / o.S.getD 0 0) : ℚ) + 1) * o.S.getD 0 0 := by
    have := hb0.2.2.2
    calc e.X.getD 0 0 - o.Xi.getD 0 0
        = ((e.X.getD 0 0 - o.Xi.getD 0 0) / o.S.getD 0 0) * o.S.getD 0 0 :=
          (div_mul_cancel₀ _ (ne_of_gt hS0)).symm
      _ < ((goInt ((e.X.getD 0 0 - o.Xi.getD 0 0) / o.S.getD 0 0) : ℚ) + 1) * o.S.getD 0 0 := by
          exact mul_lt_mul_of_pos_right this hS0
  have hv1a : (goInt ((e.X.getD 1 0 - o.Xi.getD 1 0) / o.S.getD 1 0) : ℚ) * o.S.getD 1 0
      ≤ e.X.getD 1 0 - o.Xi.getD 1 0 := by
    have := hb1.2.2.1
    calc (goInt ((e.X.getD 1 0 - o.Xi.getD 1 0) / o.S.getD 1 0) : ℚ) * o.S.getD 1 0
        ≤ ((e.X.getD 1 0 - o.Xi.getD 1 0) / o.S.getD 1 0) * o.S.getD 1 0 :=
          mul_le_mul_of_nonneg_right this hS1.le
      _ = e.X.getD 1 0 - o.Xi.getD 1 0 := div_mul_cancel₀ _ (ne_of_gt hS1)
  have hv1b : e.X.getD 1 0 - o.Xi.getD 1 0
      < ((goInt ((e.X.getD 1 0 - o.Xi.getD 1 0) / o.S.getD 1 0) : ℚ) + 1) * o.S.getD 1 0 := by
    have := hb1.2.2.2
    calc e.X.getD 1 0 - o.Xi.getD 1 0
        = ((e.X.getD 1 0 - o.Xi.getD 1 0) / o.S.getD 1 0) * o.S.getD 1 0 :=
          (div_mul_cancel₀ _ (ne_of_gt hS1)).symm
      _ < ((goInt ((e.X.getD 1 0 - o.Xi.getD 1 0) / o.S.getD 1 0) : ℚ) + 1) * o.S.getD 1 0 := by
          exact mul_lt_mul_of_pos_right this hS1
  unfold normSqP dotP pointSub
  simp only
  nlinarith [hv0a, hv0b, hv1a, hv1b, hS0, hS1]

end DecodeLemmas

section FasIntro

lemma fas_mem_intro (o : Bins) (xi xf : List ℚ) (tol : ℚ) (n : Nat) (b : Bin) (e : BinEntry)
    (hn : n < o.All.length) (hb : o.All.getD n none = some b) (he : e ∈ b.Entries)
    (hcoarse : distSegLE (binCenter o n) (segEndpoints o xi xf).1 (segEndpoints o xi xf).2
      ((9 / 10 : ℚ) * lmaxS o) = true)
    (hfine : (distSegLE (entryPoint o e) (segEndpoints o xi xf).1 (segEndpoints o xi xf).2 tol
      && IsPointIn (entryPoint o e) (envLo o xi) (envHi o xf) tol) = true) :
    e.Id ∈ o.FindAlongSegment xi xf tol := by
  unfold Bins.FindAlongSegment
  rw [foldl_append_mem]
  refine Or.inr ⟨b, ?_, ?_⟩
  · rw [List.mem_filterMap]
    refine ⟨n, List.mem_range.2 hn, ?_⟩
    rw [hb]
    simp only [hcoarse, if_true]
  · rw [List.mem_filterMap]
    refine ⟨e, he, ?_⟩
    simp only [hfine, if_true]

end FasIntro

/-- Claim C3 (amended): in 2-D, the coarse phase of `FindAlongSegment` is
an admissible filter only for tolerances small relative to the cells: if
`tol + hd ≤ 0.9 * lmax`, where `hd` bounds the half-diagonal of a cell
(`(S0/2)^2 + (S1/2)^2 ≤ hd^2`), then every stored entry within `tol` of
the segment (squared distance at most `tol^2`) and inside the expanded
envelope has its bin selected and its id in the result.  For larger
tolerances the filter can drop qualifying entries (see the
counterexample), and in 3-D the fine phase evaluates the wrong point
(see the z-coordinate defect of C4). -/
theorem coarse_test_admissible
    (o : Bins) (inv : BinsInv o) (h2 : o.Ndim = 2)
    (xi xf : List ℚ) (tol hd : ℚ) (htol : 0 ≤ tol) (hhd : 0 ≤ hd)
    (hdiag : (o.S.getD 0 0 / 2) ^ 2 + (o.S.getD 1 0 / 2) ^ 2 ≤ hd ^ 2)
    (hbtol : tol + hd ≤ (9 / 10 : ℚ) * lmaxS o)
    (n : Nat) (b : Bin) (hb : o.All[n]? = some (some b)) (e : BinEntry) (he : e ∈ b.Entries)
    (hdist : distSegSq { X := e.X.getD 0 0, Y := e.X.getD 1 0, Z := 0 }
      (segEndpoints o xi xf).1 (segEndpoints o xi xf).2 ≤ tol ^ 2)
    (henv : IsPointIn { X := e.X.getD 0 0, Y := e.X.getD 1 0, Z := 0 }
      (envLo o xi) (envHi o xf) tol = true) :
    e.Id ∈ o.FindAlongSegment xi xf tol := by
  obtain ⟨hlt, _⟩ := List.getElem?_eq_some.1 hb
  obtain ⟨hbidx, hents⟩ := inv.hbins n b hb
  have hcalc : o.CalcIdx e.X = (n : Int) := hents e he
  have hgd : o.All.getD n none = some b := by
    have := getD_eq_getElem o.All n hlt
    rw [hb] at this
    injection this with hgd2
    exact hgd2.symm
  have hep : entryPoint o e = { X := e.X.getD 0 0, Y := e.X.getD 1 0, Z := 0 } := by
    unfold entryPoint
    rw [if_neg (by omega)]
  have hcb := center_entry_bound o inv h2 n e hcalc
  have htri := distSegSq_triangle { X := e.X.getD 0 0, Y := e.X.getD 1 0, Z := 0 }
    (binCenter o n) (segEndpoints o xi xf).1 (segEndpoints o xi xf).2 tol hd htol hhd hdist
    (le_trans hcb hdiag)
  have hbtot : 0 ≤ (9 / 10 : ℚ) * lmaxS o := le_trans (by linarith) hbtol
  have hsq : (tol + hd) ^ 2 ≤ ((9 / 10 : ℚ) * lmaxS o) ^ 2 :=
    pow_le_pow_left₀ (by linarith) hbtol 2
  have hcoarse : distSegLE (binCenter o n) (segEndpoints o xi xf).1 (segEndpoints o xi xf).2
      ((9 / 10 : ℚ) * lmaxS o) = true := by
    unfold distSegLE
    exact decide_eq_true ⟨hbtot, le_trans htri hsq⟩
  have hfine : (distSegLE (entryPoint o e) (segEndpoints o xi xf).1
      (segEndpoints o xi xf).2 tol
      && IsPointIn (entryPoint o e) (envLo o xi) (envHi o xf) tol) = true := by
    rw [hep]
    rw [Bool.and_eq_true]
    constructor
    · unfold distSegLE
      exact decide_eq_true ⟨htol, hdist⟩
    · exact henv
  exact fas_mem_intro o xi xf tol n b e hlt hgd he hcoarse hfine

/-- Claim C6 (amended): bins are lazily materialized and a cell that has
received no insertion and no in-range nearest query has no Bin; however
`find_nearest` itself materializes an empty bin at the queried in-range cell
(`FindBinByIndex` allocates on lookup), so queries can change the set of
materialized bins.  This theorem characterizes the full effect of `Find`:
the geometry and table length are unchanged, every previously materialized
bin survives unchanged in its slot, and any newly materialized bin is
exactly the empty bin of the queried cell.  `FindAlongSegment` is pure in
this embedding (it only reads the table). -/
theorem find_effect
    (o : Bins) (x : List ℚ) (r : Int) (o2 : Bins) (hf : o.Find x = some (r, o2)) :
    o2.Ndim = o.Ndim ∧ o2.Xi = o.Xi ∧ o2.Xf = o.Xf ∧ o2.L = o.L ∧ o2.S = o.S ∧ o2.N = o.N ∧
    o2.All.length = o.All.length ∧
    (∀ (n : Nat) (b : Bin), o.All[n]? = some (some b) → o2.All[n]? = some (some b)) ∧
    (∀ (n : Nat) (b : Bin), o2.All[n]? = some (some b) → o.All[n]? = some (some b) ∨
      ((n : Int) = o.CalcIdx x ∧ b = { Idx := o.CalcIdx x, Entries := [] } ∧
        o.All[n]? = some none)) := by
  rcases lt_or_ge (o.CalcIdx x) 0 with h0 | h0
  · rw [find_out o x h0] at hf
    injection hf with hf1
    injection hf1 with hr ho
    subst ho
    exact ⟨rfl, rfl, rfl, rfl, rfl, rfl, rfl, fun n b hb => hb, fun n b hb => Or.inl hb⟩
  rcases lt_or_ge (o.CalcIdx x) (o.All.length : Int) with hlt | hge
  swap
  · rw [find_panic o x h0 hge] at hf
    exact absurd hf (by simp)
  have htn : ((o.CalcIdx x).toNat : Int) = o.CalcIdx x := Int.toNat_of_nonneg h0
  have hmlt : (o.CalcIdx x).toNat < o.All.length := by omega
  rcases hgd : o.All.getD (o.CalcIdx x).toNat none with _ | b
  · rw [find_alloc o x h0 hlt hgd] at hf
    injection hf with hf1
    injection hf1 with hr ho
    subst ho
    refine ⟨rfl, rfl, rfl, rfl, rfl, rfl, by rw [setAll_All, List.length_set], ?_, ?_⟩
    · intro n b hb
      rw [setAll_All, List.getElem?_set]
      by_cases hn : (o.CalcIdx x).toNat = n
      · exfalso
        subst hn
        have := getD_eq_getElem o.All _ hmlt
        rw [hb, hgd] at this
        injection this with this1
        exact absurd this1 (by simp)
      · rw [if_neg hn]
        exact hb
    · intro n b hb
      rw [setAll_All, List.getElem?_set] at hb
      by_cases hn : (o.CalcIdx x).toNat = n
      · rw [if_pos hn, if_pos (by omega)] at hb
        have hb2 : ({ Idx := o.CalcIdx x, Entries := [] } : Bin) = b := by
          injection hb with hb1
          injection hb1
        refine Or.inr ⟨by rw [← hn]; exact htn, hb2.symm, ?_⟩
        rw [← hn]
        have := getD_eq_getElem o.All _ hmlt
        rw [hgd] at this
        exact this
      · rw [if_neg hn] at hb
        exact Or.inl hb
  · rw [find_hit o x b h0 hlt hgd] at hf
    injection hf with hf1
    injection hf1 with hr ho
    subst ho
    exact ⟨rfl, rfl, rfl, rfl, rfl, rfl, rfl, fun n b hb => hb, fun n b hb => Or.inl hb⟩

/-- Claim C9: on a freshly (and validly) initialized grid, for every point
inside the bounding box the computed flat bin index is nonnegative and
strictly below the allocated table length, so `Append` succeeds and in
particular never takes the defensive bin-index-out-of-range branch. -/
theorem append_in_box_ok
    (xi xf : List ℚ) (ndiv : Int) (o : Bins) (hinit : Bins.Init xi xf ndiv = Except.ok o)
    (hv : ∀ k, k < xi.length → xi.getD k 0 < xf.getD k 0) (hnd : 1 ≤ ndiv)
    (x : List ℚ) (id : Int)
    (hin : ∀ k, k < o.Ndim → o.Xi.getD k 0 ≤ x.getD k 0 ∧ x.getD k 0 ≤ o.Xf.getD k 0) :
    0 ≤ o.CalcIdx x ∧ o.CalcIdx x < (o.All.length : Int) ∧
    (o.Append x id).1 = Except.ok () := by
  have inv := init_valid_BinsInv xi xf ndiv o hinit hv hnd
  obtain ⟨h0, hlt⟩ := calcIdx_lt_len o inv x hin
  refine ⟨h0, hlt, ?_⟩
  rw [append_ok_eq o x id h0 hlt]

/-- Claim C10: frame property of insertion.  A successful
`Append x id` leaves all geometry fields unchanged, changes no table slot
other than the one of `CalcIdx x`, and stores at that slot a bin whose
entry sequence is the previous sequence (empty if the bin was not yet
materialized) with exactly one new entry `{id, x}` appended at the end,
whose stored coordinate equals the argument point (the source stores a
private copy, which is identity in this pure embedding). -/
theorem append_frame
    (o : Bins) (x : List ℚ) (id : Int) (o2 : Bins)
    (hok : o.Append x id = (Except.ok (), o2)) :
    o2.Ndim = o.Ndim ∧ o2.Xi = o.Xi ∧ o2.Xf = o.Xf ∧ o2.L = o.L ∧ o2.S = o.S ∧ o2.N = o.N ∧
    0 ≤ o.CalcIdx x ∧ (o.CalcIdx x).toNat < o.All.length ∧
    (∀ m : Nat, m ≠ (o.CalcIdx x).toNat → o2.All[m]? = o.All[m]?) ∧
    o2.All[(o.CalcIdx x).toNat]? = some (some (appendBin o x id)) ∧
    (appendBin o x id).Entries =
      (match o.All.getD (o.CalcIdx x).toNat none with
       | some bold => bold.Entries
       | none => []) ++ [{ Id := id, X := x }] := by
  rcases lt_or_ge (o.CalcIdx x) 0 with h0 | h0
  · rw [append_err_out o x id h0] at hok
    exact absurd hok (by simp)
  rcases lt_or_ge (o.CalcIdx x) (o.All.length : Int) with hlt | hge
  swap
  · rw [append_err_bin o x id h0 hge] at hok
    exact absurd hok (by simp)
  have hmlt : (o.CalcIdx x).toNat < o.All.length := by omega
  rw [append_ok_eq o x id h0 hlt] at hok
  injection hok with hu ho
  subst ho
  refine ⟨rfl, rfl, rfl, rfl, rfl, rfl, h0, hmlt, ?_, ?_, ?_⟩
  · intro m hm
    rw [setAll_All, List.getElem?_set, if_neg (fun hc => hm hc.symm)]
  · rw [setAll_All, List.getElem?_set, if_pos rfl, if_pos hmlt]
  · rcases hgd : o.All.getD (o.CalcIdx x).toNat none with _ | bold
    · simp [appendBin_none o x id hgd]
    · simp [appendBin_some o x id bold hgd]

/-- Claim C7: for every valid construction (dimension 2 or 3, `xf > xi`
componentwise, `ndiv ≥ 1`), `CalcIdx` maps the lower corner to bin 0 and
the upper corner to a nonnegative index strictly below the product of the
per-dimension bin counts (in this exact-arithmetic embedding of the
float64 computation). -/
theorem calcIdx_corners
    (xi xf : List ℚ) (ndiv : Int) (o : Bins) (hinit : Bins.Init xi xf ndiv = Except.ok o)
    (hv : ∀ k, k < xi.length → xi.getD k 0 < xf.getD k 0) (hnd : 1 ≤ ndiv) :
    o.CalcIdx xi = 0 ∧ 0 ≤ o.CalcIdx xf ∧ o.CalcIdx xf < prodN o := by
  obtain ⟨hnd1, hXi, hXf, hAll, hLl, hSl, hNl, hlen2, hge2, hle3⟩ :=
    init_ok_shape xi xf ndiv o hinit
  have inv := init_valid_BinsInv xi xf ndiv o hinit hv hnd
  have hvals : ∀ k, k < o.Ndim → 0 < o.S.getD k 0 ∧ o.N.getD k 0 = ndiv + 1 := by
    intro k hk
    exact init_valid_vals xi xf ndiv o hinit hv hnd k (by omega)
  have hinXi : ∀ k, k < o.Ndim → o.Xi.getD k 0 ≤ xi.getD k 0 ∧ xi.getD k 0 ≤ o.Xf.getD k 0 := by
    intro k hk
    rw [hXi, hXf]
    exact ⟨le_refl _, le_of_lt (hv k (by omega))⟩
  have hinXf : ∀ k, k < o.Ndim → o.Xi.getD k 0 ≤ xf.getD k 0 ∧ xf.getD k 0 ≤ o.Xf.getD k 0 := by
    intro k hk
    rw [hXi, hXf]
    exact ⟨le_of_lt (hv k (by omega)), le_refl _⟩
  have hti : ∀ k, k < o.Ndim → goInt ((xi.getD k 0 - o.Xi.getD k 0) / o.S.getD k 0) = 0 := by
    intro k hk
    rw [hXi, sub_self, zero_div]
    show goInt 0 = 0
    rw [goInt_of_nonneg (le_refl 0), Int.floor_zero]
  have htf : ∀ k, k < o.Ndim → goInt ((xf.getD k 0 - o.Xi.getD k 0) / o.S.getD k 0) = ndiv := by
    intro k hk
    obtain ⟨hL, hS, hN⟩ := init_ok_vals xi xf ndiv o hinit k (by omega)
    rw [hXi, hS, valid_ratio _ _ (sub_pos.2 (hv k (by omega))) hnd, goInt_intCast]
  constructor
  · rw [calcIdx_of_inBox o xi hinXi]
    rcases inv.hdim with hd | hd
    · rw [if_neg (by omega), hti 0 (by omega), hti 1 (by omega)]
      ring
    · rw [if_pos (by omega), hti 0 (by omega), hti 1 (by omega), hti 2 (by omega)]
      ring
  · rw [calcIdx_of_inBox o xf hinXf]
    rcases inv.hdim with hd | hd
    · rw [if_neg (by omega), htf 0 (by omega), htf 1 (by omega), prodN_getD2 o (by omega),
        (hvals 0 (by omega)).2, (hvals 1 (by omega)).2]
      constructor
      · nlinarith
      · nlinarith
    · rw [if_pos (by omega), htf 0 (by omega), htf 1 (by omega), htf 2 (by omega),
        prodN_getD3 o (by omega), (hvals 0 (by omega)).2, (hvals 1 (by omega)).2,
        (hvals 2 (by omega)).2]
      have h1 : (0 : Int) ≤ ndiv * (ndiv + 1) := by nlinarith
      have h2 : (0 : Int) ≤ ndiv * (ndiv + 1) * (ndiv + 1) := by nlinarith
      constructor
      · linarith
      · nlinarith

/-- Claim C8: `Append` of a point outside the box in some dimension fails
with the out-of-range error and leaves the state completely unchanged
(`CalcIdx` is `-1`); moreover every state reachable through the index's
operations stores only in-box entries, and queries (`Find`,
`FindAlongSegment`) only ever return `-1` or ids of entries stored in the
state — so an id rejected at insertion is never returned unless separately
inserted. -/
theorem append_oor_rejected
    (o : Bins) (x : List ℚ) (id : Int) (k : Nat) (hk : k < o.Ndim)
    (hout : x.getD k 0 < o.Xi.getD k 0 ∨ o.Xf.getD k 0 < x.getD k 0) :
    o.CalcIdx x = -1 ∧
    o.Append x id = (Except.error "point is out of range", o) ∧
    (∀ o2, Reach o2 → EntriesInBox o2) ∧
    (∀ o2 y r o3, Bins.Find o2 y = some (r, o3) → r = -1 ∨ IdStored o2 r) ∧
    (∀ o2 a c t i, i ∈ Bins.FindAlongSegment o2 a c t → IdStored o2 i) := by
  have hneg := calcIdx_neg_of_out o x k hk hout
  exact ⟨hneg, append_err_out o x id (by omega),
    fun o2 h => reach_entriesInBox o2 h,
    fun o2 y r o3 hf => find_sound o2 y r o3 hf,
    fun o2 a c t i hi => fas_sound o2 a c t i hi⟩

/-- Claim C5: for a point whose (in-range) bin holds at least one entry,
`Find` returns — without changing the state — exactly the spec-side
`specNearestId`: the id of the first entry (in insertion order) minimizing
squared Euclidean distance among the entries of that single bin only;
entries of other bins play no part (the result is a function of this bin's
entry list alone).  The bound hypothesis on `maxFloat64` reflects the
source's initialization of the running minimum. -/
theorem find_nearest_single_bin (o : Bins) (x : List ℚ) (n : Nat) (b : Bin)
    (hcalc : o.CalcIdx x = (n : Int)) (hb : o.All[n]? = some (some b))
    (hne : b.Entries ≠ [])
    (hmax : ∀ e ∈ b.Entries, sqDistTo x o.Ndim e.X < maxFloat64) :
    o.Find x = some (specNearestId x o.Ndim b.Entries, o) ∧
    ∃ ew ∈ b.Entries,
      b.Entries.find? (fun e => b.Entries.all (fun e2 =>
        decide (sqDistTo x o.Ndim e.X ≤ sqDistTo x o.Ndim e2.X))) = some ew ∧
      specNearestId x o.Ndim b.Entries = ew.Id ∧
      ∀ e2 ∈ b.Entries, sqDistTo x o.Ndim ew.X ≤ sqDistTo x o.Ndim e2.X := by
  obtain ⟨hlt, _⟩ := List.getElem?_eq_some.1 hb
  have h0 : 0 ≤ o.CalcIdx x := by rw [hcalc]; exact Int.natCast_nonneg n
  have hltI : o.CalcIdx x < (o.All.length : Int) := by rw [hcalc]; exact_mod_cast hlt
  have htn : (o.CalcIdx x).toNat = n := by omega
  have hgd : o.All.getD (o.CalcIdx x).toNat none = some b := by
    rw [htn]
    have := getD_eq_getElem o.All n hlt
    rw [hb] at this
    injection this with h2
    exact h2.symm
  have hspec := findLoop_spec x o.Ndim b.Entries hne hmax
  refine ⟨?_, ?_⟩
  · rw [find_hit o x b h0 hltI hgd, hspec.1]
  · obtain ⟨ew, hmem, hfind, hid⟩ := hspec.2
    refine ⟨ew, hmem, hfind, hid, ?_⟩
    have hall := List.find?_some hfind
    rw [List.all_eq_true] at hall
    intro e2 he2
    have := hall e2 he2
    simpa using this

section DemoStates

lemma gridA_eval : gridA =
    { Ndim := 2, Xi := [0, 0], Xf := [1, 1], L := [1, 1], S := [1, 1], N := [2, 2],
      All := [none, none, none, none] } := by
  norm_num [gridA, gridOf, Bins.Init, goInt, List.getD, List.range_succ, List.replicate_succ]
  rfl

lemma gridB_eval : gridB =
    { Ndim := 2, Xi := [0, 0], Xf := [10, 10], L := [10, 10], S := [2, 2], N := [6, 6],
      All := (List.replicate 36 (none : Option Bin)).set 14
        (some { Idx := 14, Entries := [{ Id := 1, X := [5, 5] }] }) } := by
  norm_num [gridB, gridOf, Bins.Init, Bins.Append, Bins.CalcIdx, Bins.FindBinByIndex, goInt,
    List.getD, List.range_succ]
  rfl

lemma gridD_eval : gridD =
    { Ndim := 3, Xi := [0, 0, 0], Xf := [10, 10, 10], L := [10, 10, 10], S := [10, 10, 10],
      N := [2, 2, 2],
      All := (List.replicate 8 (none : Option Bin)).set 0
        (some { Idx := 0, Entries := [{ Id := 1, X := [2, 0, 3/10] }] }) } := by
  norm_num [gridD, gridOf, Bins.Init, Bins.Append, Bins.CalcIdx, Bins.FindBinByIndex, goInt,
    List.getD, List.range_succ]
  rfl

lemma gridE_eval : gridE =
    { Ndim := 2, Xi := [0, 0], Xf := [10, 10], L := [10, 10], S := [2, 2], N := [6, 6],
      All := (List.replicate 36 (none : Option Bin)).set 0 (some binE) } := by
  norm_num [gridE, binE, gridOf, Bins.Init, Bins.Append, Bins.CalcIdx, Bins.FindBinByIndex,
    goInt, List.getD, List.range_succ]
  rfl

lemma gridW_eval : gridW =
    { Ndim := 2, Xi := [0, 0], Xf := [10, 10], L := [10, 10], S := [2, 2], N := [6, 6],
      All := (List.replicate 36 (none : Option Bin)).set 12 (some binW) } := by
  norm_num [gridW, binW, gridOf, Bins.Init, Bins.Append, Bins.CalcIdx, Bins.FindBinByIndex,
    goInt, List.getD, List.range_succ]
  rfl

end DemoStates

/-- Claim C1 (code bug): `Clear` leaves the geometry fields unchanged, but
the grid is not reusable: `Clear` sets the table to a zero-length slice, so
a subsequent `Append` of a point inside the box (index 0 here) fails with
the internal bin-index-out-of-range error instead of storing the entry. -/
theorem clear_breaks_reinsertion :
    (Bins.Clear gridA).Ndim = gridA.Ndim ∧ (Bins.Clear gridA).Xi = gridA.Xi ∧
    (Bins.Clear gridA).Xf = gridA.Xf ∧ (Bins.Clear gridA).L = gridA.L ∧
    (Bins.Clear gridA).S = gridA.S ∧ (Bins.Clear gridA).N = gridA.N ∧
    (Bins.Clear gridA).CalcIdx [1/2, 1/2] = 0 ∧
    (Bins.Clear gridA).Append [1/2, 1/2] 7
      = (Except.error "bin index is out of range", Bins.Clear gridA) := by
  refine ⟨rfl, rfl, rfl, rfl, rfl, rfl, ?_, ?_⟩
  · norm_num [Bins.Clear, Bins.CalcIdx, gridA_eval, goInt, List.getD, List.range_succ]
  · norm_num [Bins.Clear, Bins.Append, Bins.CalcIdx, Bins.FindBinByIndex, gridA_eval, goInt,
      List.getD, List.range_succ]

/-- Claim C2 (code bug): after `Clear`, `Find` on a point inside the box
computes a valid index (0), but `FindBinByIndex` on the emptied table
returns nil and the source dereferences it: the embedding returns `none`
(the Go nil-pointer panic) instead of the documented `-1`. -/
theorem clear_then_find_nearest_panics :
    gridA.CalcIdx [1/2, 1/2] = 0 ∧
    (Bins.Clear gridA).CalcIdx [1/2, 1/2] = 0 ∧
    (Bins.Clear gridA).Find [1/2, 1/2] = none := by
  refine ⟨?_, ?_, ?_⟩
  · norm_num [Bins.CalcIdx, gridA_eval, goInt, List.getD, List.range_succ]
  · norm_num [Bins.Clear, Bins.CalcIdx, gridA_eval, goInt, List.getD, List.range_succ]
  · norm_num [Bins.Clear, Bins.Find, Bins.CalcIdx, Bins.FindBinByIndex, gridA_eval, goInt,
      List.getD, List.range_succ]

/-- Claim C4 (code bug): in 3-D the fine phase reads the z-coordinate of an
entry from `entry.X[0]` instead of `entry.X[2]`.  Concretely: entry 1 at
(2, 0, 3/10) is within tolerance 1/2 of the segment (0,0,0)-(10,0,0) and
inside its expanded envelope, yet `FindAlongSegment` returns the empty
list, because it evaluates the entry at the corrupted point (2, 0, 2). -/
theorem fine_phase_wrong_z_3d :
    gridD.All[0]? = some (some { Idx := 0, Entries := [{ Id := 1, X := [2, 0, 3/10] }] }) ∧
    distSegSq { X := 2, Y := 0, Z := 3/10 } (segEndpoints gridD [0, 0, 0] [10, 0, 0]).1
      (segEndpoints gridD [0, 0, 0] [10, 0, 0]).2 ≤ (1/2) ^ 2 ∧
    IsPointIn { X := 2, Y := 0, Z := 3/10 } (envLo gridD [0, 0, 0]) (envHi gridD [10, 0, 0])
      (1/2) = true ∧
    gridD.FindAlongSegment [0, 0, 0] [10, 0, 0] (1/2) = [] := by
  refine ⟨?_, ?_, ?_, ?_⟩
  · rw [gridD_eval]
    rfl
  · norm_num [gridD_eval, distSegSq, segParam, segPointAt, normSqP, dotP, pointSub,
      segEndpoints, List.getD]
  · norm_num [gridD_eval, IsPointIn, envLo, envHi, List.getD]
  · have h1 : Int.tmod 0 2 = 0 := by decide
    have h2 : Int.tmod 0 4 = 0 := by decide
    have h3 : Int.tdiv 0 2 = 0 := by decide
    have h4 : Int.tdiv 0 4 = 0 := by decide
    norm_num [gridD_eval, Bins.FindAlongSegment, segEndpoints, lmaxS, binCenter, entryPoint,
      distSegLE, distSegSq, segParam, segPointAt, normSqP, dotP, pointSub, goMod, goDiv,
      IsPointIn, envLo, envHi, List.getD, List.range_succ, List.filterMap,
      List.replicate_succ, h1, h2, h3, h4]

/-- Claim C3 (counterexample): the coarse phase is not admissible for every
tolerance ≥ 0.  Entry 1 at (5,5) has exact distance 5 ≤ tol = 5 to the
segment (0,0)-(0,10) and lies inside the expanded envelope, but its bin
center (5,5) is farther than `0.9 * lmax = 1.8` from the segment, so the
bin is rejected and `FindAlongSegment` returns the empty list. -/
theorem coarse_filter_drops_entry :
    gridB.All[14]? = some (some { Idx := 14, Entries := [{ Id := 1, X := [5, 5] }] }) ∧
    distSegSq { X := 5, Y := 5, Z := 0 } (segEndpoints gridB [0, 0] [0, 10]).1
      (segEndpoints gridB [0, 0] [0, 10]).2 ≤ 5 ^ 2 ∧
    IsPointIn { X := 5, Y := 5, Z := 0 } (envLo gridB [0, 0]) (envHi gridB [0, 10]) 5 = true ∧
    gridB.FindAlongSegment [0, 0] [0, 10] 5 = [] := by
  refine ⟨?_, ?_, ?_, ?_⟩
  · rw [gridB_eval]
    rfl
  · norm_num [gridB_eval, distSegSq, segParam, segPointAt, normSqP, dotP, pointSub,
      segEndpoints, List.getD]
  · norm_num [gridB_eval, IsPointIn, envLo, envHi, List.getD]
  · have h1 : Int.tmod 14 6 = 2 := by decide
    have h2 : Int.tmod 14 36 = 14 := by decide
    have h3 : Int.tdiv 14 6 = 2 := by decide
    norm_num [gridB_eval, Bins.FindAlongSegment, segEndpoints, lmaxS, binCenter, entryPoint,
      distSegLE, distSegSq, segParam, segPointAt, normSqP, dotP, pointSub, goMod, goDiv,
      IsPointIn, envLo, envHi, List.getD, List.range_succ, List.filterMap,
      List.replicate_succ, h1, h2, h3]

/-- Claim C6 (counterexample): queries do change the set of materialized
bins: on a fresh grid with no bins, `Find` at an in-range empty cell
returns `-1` but materializes an empty `Bin` in slot 0 of the table. -/
theorem find_nearest_materializes_bin :
    gridA.All = [none, none, none, none] ∧
    gridA.Find [1/2, 1/2] = some (-1, gridA2) ∧
    gridA2.All ≠ gridA.All := by
  refine ⟨?_, ?_, ?_⟩
  · rw [gridA_eval]
  · norm_num [gridA_eval, gridA2, Bins.Find, Bins.CalcIdx, Bins.FindBinByIndex, goInt,
      List.getD, List.range_succ, findLoop]
  · rw [gridA_eval]
    simp [gridA2, gridA_eval]

lemma two_lt_cases {P : Nat → Prop} (h0 : P 0) (h1 : P 1) : ∀ k, k < 2 → P k := by
  intro k hk
  rcases k with _ | k2
  · exact h0
  · rcases k2 with _ | k3
    · exact h1
    · omega

lemma init_eval_ten : Bins.Init [0, 0] [10, 10] 5 = Except.ok (gridOf [0, 0] [10, 10] 5) := by
  norm_num [gridOf, Bins.Init, goInt, List.getD, List.range_succ]

lemma maxFloat64_big : (1 : ℚ) ≤ maxFloat64 := by
  unfold maxFloat64
  norm_num

/-- Witness for C3: concrete 2-D grid (box [0,10]^2, ndiv 5) with entry 1
at (1/5, 5); with `tol = 3/10` and `hd = 3/2` the admissibility theorem
applies and id 1 is returned for the segment (0,0)-(0,10). -/
theorem coarse_test_admissible_witness :
    (1 : Int) ∈ gridW.FindAlongSegment [0, 0] [0, 10] (3/10) := by
  have hv : ∀ k, k < ([0, 0] : List ℚ).length →
      ([0, 0] : List ℚ).getD k 0 < ([10, 10] : List ℚ).getD k 0 := by
    show ∀ k, k < 2 → ([0, 0] : List ℚ).getD k 0 < ([10, 10] : List ℚ).getD k 0
    exact two_lt_cases (by norm_num [List.getD]) (by norm_num [List.getD])
  have inv : BinsInv gridW :=
    append_BinsInv (gridOf [0, 0] [10, 10] 5) [1/5, 5] 1
      (init_valid_BinsInv [0, 0] [10, 10] 5 (gridOf [0, 0] [10, 10] 5) init_eval_ten hv
        (by norm_num))
  have h2dim : gridW.Ndim = 2 := by rw [gridW_eval]
  have hb : gridW.All[12]? = some (some binW) := by
    rw [gridW_eval]
    rfl
  have he : ({ Id := 1, X := [1/5, 5] } : BinEntry) ∈ binW.Entries := by simp [binW]
  have hdiag : (gridW.S.getD 0 0 / 2) ^ 2 + (gridW.S.getD 1 0 / 2) ^ 2 ≤ (3/2 : ℚ) ^ 2 := by
    rw [gridW_eval]
    norm_num [List.getD]
  have hbtol : (3/10 : ℚ) + 3/2 ≤ (9 / 10 : ℚ) * lmaxS gridW := by
    rw [gridW_eval]
    norm_num [lmaxS, List.getD]
  have hdist : distSegSq (Point.mk (([1/5, 5] : List ℚ).getD 0 0)
      (([1/5, 5] : List ℚ).getD 1 0) 0) (segEndpoints gridW [0, 0] [0, 10]).1
      (segEndpoints gridW [0, 0] [0, 10]).2 ≤ (3/10 : ℚ) ^ 2 := by
    rw [gridW_eval]
    norm_num [distSegSq, segParam, segPointAt, normSqP, dotP, pointSub, segEndpoints,
      List.getD]
  have henv : IsPointIn (Point.mk (([1/5, 5] : List ℚ).getD 0 0)
      (([1/5, 5] : List ℚ).getD 1 0) 0) (envLo gridW [0, 0]) (envHi gridW [0, 10]) (3/10)
      = true := by
    rw [gridW_eval]
    norm_num [IsPointIn, envLo, envHi, List.getD]
  exact coarse_test_admissible gridW inv h2dim [0, 0] [0, 10] (3/10) (3/2) (by norm_num)
    (by norm_num) hdiag hbtol 12 binW hb { Id := 1, X := [1/5, 5] } he hdist henv

/-- Witness for C5: concrete grid with two entries in bin 0 at equal
distance from the query (a tie); `Find` returns `specNearestId`, the
first-inserted of the minimizing entries. -/
theorem find_nearest_single_bin_witness :
    gridE.Find [11/10, 1] = some (specNearestId [11/10, 1] gridE.Ndim binE.Entries, gridE) := by
  have hcalc : gridE.CalcIdx [11/10, 1] = ((0 : Nat) : Int) := by
    norm_num [gridE_eval, Bins.CalcIdx, goInt, List.getD, List.range_succ]
  have hb : gridE.All[0]? = some (some binE) := by
    rw [gridE_eval]
    rfl
  have hne : binE.Entries ≠ [] := by simp [binE]
  have hmax : ∀ e ∈ binE.Entries, sqDistTo [11/10, 1] gridE.Ndim e.X < maxFloat64 := by
    intro e he
    have hsmall : sqDistTo [11/10, 1] gridE.Ndim e.X < 1 := by
      rcases (by simpa [binE] using he :
          e = ({ Id := 1, X := [1, 1] } : BinEntry) ∨ e = { Id := 2, X := [6/5, 1] }) with
        rfl | rfl
      · norm_num [gridE_eval, sqDistTo, List.getD, List.range_succ]
      · norm_num [gridE_eval, sqDistTo, List.getD, List.range_succ]
    exact lt_of_lt_of_le hsmall maxFloat64_big
  exact (find_nearest_single_bin gridE [11/10, 1] 0 binE hcalc hb hne hmax).1

/-- Witness for C6 (amended): the effect theorem applied to the concrete
`Find` call of the counterexample grid. -/
theorem find_effect_witness :
    gridA2.Ndim = gridA.Ndim ∧ gridA2.S = gridA.S ∧ gridA2.All.length = gridA.All.length := by
  have hf : gridA.Find [1/2, 1/2] = some (-1, gridA2) := by
    norm_num [gridA_eval, gridA2, Bins.Find, Bins.CalcIdx, Bins.FindBinByIndex, goInt,
      List.getD, List.range_succ, findLoop]
  obtain ⟨h1, _, _, _, h5, _, h7, _⟩ := find_effect gridA [1/2, 1/2] (-1) gridA2 hf
  exact ⟨h1, h5, h7⟩

/-- Witness for C7: box [0,10]^2 with ndiv 5; the lower corner maps to bin
0 and the upper corner maps below the bin-count product. -/
theorem calcIdx_corners_witness :
    (gridOf [0, 0] [10, 10] 5).CalcIdx [0, 0] = 0 ∧
    0 ≤ (gridOf [0, 0] [10, 10] 5).CalcIdx [10, 10] ∧
    (gridOf [0, 0] [10, 10] 5).CalcIdx [10, 10] < prodN (gridOf [0, 0] [10, 10] 5) := by
  have hv : ∀ k, k < ([0, 0] : List ℚ).length →
      ([0, 0] : List ℚ).getD k 0 < ([10, 10] : List ℚ).getD k 0 := by
    show ∀ k, k < 2 → ([0, 0] : List ℚ).getD k 0 < ([10, 10] : List ℚ).getD k 0
    exact two_lt_cases (by norm_num [List.getD]) (by norm_num [List.getD])
  exact calcIdx_corners [0, 0] [10, 10] 5 (gridOf [0, 0] [10, 10] 5) init_eval_ten hv
    (by norm_num)

/-- Witness for C8: inserting (-1,-1) with id 3 into the unit-box grid
fails with the out-of-range error and leaves the grid unchanged. -/
theorem append_oor_rejected_witness :
    gridA.Append [-1, -1] 3 = (Except.error "point is out of range", gridA) := by
  have hdim : 0 < gridA.Ndim := by
    rw [gridA_eval]
    norm_num
  have hout : ([-1, -1] : List ℚ).getD 0 0 < gridA.Xi.getD 0 0 ∨
      gridA.Xf.getD 0 0 < ([-1, -1] : List ℚ).getD 0 0 := by
    left
    rw [gridA_eval]
    norm_num [List.getD]
  exact (append_oor_rejected gridA [-1, -1] 3 0 hdim hout).2.1

lemma gridPre_eval : gridOf [0, 0] [10, 10] 5 =
    { Ndim := 2, Xi := [0, 0], Xf := [10, 10], L := [10, 10], S := [2, 2], N := [6, 6],
      All := List.replicate 36 none } := by
  norm_num [gridOf, Bins.Init, goInt, List.getD, List.range_succ]
  rfl

/-- Witness for C9: inserting (1,1) into the freshly initialized
[0,10]^2 grid succeeds. -/
theorem append_in_box_ok_witness :
    ((gridOf [0, 0] [10, 10] 5).Append [1, 1] 1).1 = Except.ok () := by
  have hv : ∀ k, k < ([0, 0] : List ℚ).length →
      ([0, 0] : List ℚ).getD k 0 < ([10, 10] : List ℚ).getD k 0 := by
    show ∀ k, k < 2 → ([0, 0] : List ℚ).getD k 0 < ([10, 10] : List ℚ).getD k 0
    exact two_lt_cases (by norm_num [List.getD]) (by norm_num [List.getD])
  have hin : ∀ k, k < (gridOf [0, 0] [10, 10] 5).Ndim →
      (gridOf [0, 0] [10, 10] 5).Xi.getD k 0 ≤ ([1, 1] : List ℚ).getD k 0 ∧
      ([1, 1] : List ℚ).getD k 0 ≤ (gridOf [0, 0] [10, 10] 5).Xf.getD k 0 := by
    rw [gridPre_eval]
    intro k hk
    rcases k with _ | k2
    · constructor <;> norm_num [List.getD]
    · rcases k2 with _ | k3
      · constructor <;> norm_num [List.getD]
      · simp at hk
        omega
  exact (append_in_box_ok [0, 0] [10, 10] 5 (gridOf [0, 0] [10, 10] 5) init_eval_ten hv
    (by norm_num) [1, 1] 1 hin).2.2

/-- Witness for C10: the frame theorem applied to inserting entry 7 at
(1/2,1/2) into the unit-box grid. -/
theorem append_frame_witness :
    gridA3.Ndim = gridA.Ndim ∧ gridA3.Xi = gridA.Xi ∧ gridA3.Xf = gridA.Xf ∧
    gridA3.All[(gridA.CalcIdx [1/2, 1/2]).toNat]?
      = some (some (appendBin gridA [1/2, 1/2] 7)) := by
  have hok : gridA.Append [1/2, 1/2] 7 = (Except.ok (), gridA3) := by
    rw [Prod.ext_iff]
    refine ⟨?_, rfl⟩
    norm_num [gridA_eval, Bins.Append, Bins.CalcIdx, Bins.FindBinByIndex, goInt,
      List.getD, List.range_succ]
  obtain ⟨h1, h2, h3, _, _, _, _, _, _, h10, _⟩ :=
    append_frame gridA [1/2, 1/2] 7 gridA3 hok
  exact ⟨h1, h2, h3, h10⟩
